import Mathlib

/-!
Verification of the node-normalization pipeline in `process_nodes.py`.

The script ingests a JSON library of automation-platform node definitions and
emits one normalized record per node.  We shallowly embed the decoded-JSON
value space and every function of the script that the claims touch:
`find_nodes_in_object`, `display_options_to_rules`, `_single_condition_expr`,
`generate_ai_hint_for_param`, `clean_parameter`,
`collect_conditional_rules_from_params`, `clean_node`, `sanitize_filename`
and the per-node loop of `process_all_sources`.

Conventions of the embedding:
* JSON numbers are modelled as integers (no claim involves floating point).
* Python truthiness, `or`-chains, `dict.get`, `dict.setdefault` and
  `d[k] = v` are modelled explicitly (`Json.truthy`, `pyOr`, `Json.get`,
  `obj_setdefault`, `dict_set`).
* Python exceptions raised on the paths the script can actually reach with
  decoded-JSON input (attribute errors from `.lower()` on non-strings,
  type errors from `dict(...)` on non-mappings and from unhashable dict
  keys) are modelled with `Except String`.
* The recursion of `collect_conditional_rules_from_params` descends through
  `dict.get` results, so it is given a structural fuel argument bounded by
  `Json.size`; the public wrapper passes an always-sufficient fuel and fuel
  irrelevance is proved below.  Every definition is computable by the
  kernel.
-/

deriving instance DecidableEq for Except

inductive Json where
  | null : Json
  | bool : Bool → Json
  | num : Int → Json
  | str : String → Json
  | arr : List Json → Json
  | obj : List (String × Json) → Json

namespace Json

mutual

def beq : Json → Json → Bool
  | .null, .null => true
  | .bool a, .bool b => a = b
  | .num a, .num b => decide (a = b)
  | .str a, .str b => decide (a = b)
  | .arr l1, .arr l2 => beqArr l1 l2
  | .obj f1, .obj f2 => beqObj f1 f2
  | _, _ => false

def beqArr : List Json → List Json → Bool
  | [], [] => true
  | x :: xs, y :: ys => beq x y && beqArr xs ys
  | _, _ => false

def beqObj : List (String × Json) → List (String × Json) → Bool
  | [], [] => true
  | (k1, v1) :: xs, (k2, v2) :: ys => decide (k1 = k2) && beq v1 v2 && beqObj xs ys
  | _, _ => false

end

mutual

theorem eq_of_beq : ∀ {a b : Json}, beq a b = true → a = b
  | .null, .null, _ => rfl
  | .bool _, .bool _, h => by
    simp only [beq, decide_eq_true_eq] at h; cases h; rfl
  | .num _, .num _, h => by
    simp only [beq, decide_eq_true_eq] at h; cases h; rfl
  | .str _, .str _, h => by
    simp only [beq, decide_eq_true_eq] at h; cases h; rfl
  | .arr l1, .arr l2, h => by
    have := eqArr_of_beqArr (show beqArr l1 l2 = true by simpa [beq] using h)
    cases this; rfl
  | .obj f1, .obj f2, h => by
    have := eqObj_of_beqObj (show beqObj f1 f2 = true by simpa [beq] using h)
    cases this; rfl

theorem eqArr_of_beqArr : ∀ {l1 l2 : List Json}, beqArr l1 l2 = true → l1 = l2
  | [], [], _ => rfl
  | x :: xs, y :: ys, h => by
    simp only [beqArr, Bool.and_eq_true] at h
    have h1 := eq_of_beq h.1
    have h2 := eqArr_of_beqArr h.2
    cases h1; cases h2; rfl

theorem eqObj_of_beqObj :
    ∀ {f1 f2 : List (String × Json)}, beqObj f1 f2 = true → f1 = f2
  | [], [], _ => rfl
  | (k1, v1) :: xs, (k2, v2) :: ys, h => by
    simp only [beqObj, Bool.and_eq_true, decide_eq_true_eq] at h
    have h1 := h.1.1
    have h2 := eq_of_beq h.1.2
    have h3 := eqObj_of_beqObj h.2
    cases h1; cases h2; cases h3; rfl

end

mutual

theorem beq_refl : ∀ a : Json, beq a a = true
  | .null => rfl
  | .bool b => by simp [beq]
  | .num n => by simp [beq]
  | .str s => by simp [beq]
  | .arr l => by simpa [beq] using beqArr_refl l
  | .obj f => by simpa [beq] using beqObj_refl f

theorem beqArr_refl : ∀ l : List Json, beqArr l l = true
  | [] => rfl
  | x :: xs => by simp [beqArr, beq_refl x, beqArr_refl xs]

theorem beqObj_refl : ∀ f : List (String × Json), beqObj f f = true
  | [] => rfl
  | (k, v) :: xs => by simp [beqObj, beq_refl v, beqObj_refl xs]

end

instance instDecEqJson : DecidableEq Json := fun a b =>
  if h : beq a b = true then isTrue (eq_of_beq h)
  else isFalse fun he => h (he ▸ beq_refl a)

mutual

/-- Structural size of a JSON value, the fuel bound for the recursive
rule collector. -/
def size : Json → Nat
  | .null => 1
  | .bool _ => 1
  | .num _ => 1
  | .str _ => 1
  | .arr l => sizeArr l + 1
  | .obj kvs => sizeObj kvs + 1

def sizeArr : List Json → Nat
  | [] => 0
  | j :: r => size j + sizeArr r

def sizeObj : List (String × Json) → Nat
  | [] => 0
  | (_, j) :: r => size j + sizeObj r

end

/-- Python truthiness of a decoded-JSON value. -/
def truthy : Json → Bool
  | .null => false
  | .bool b => b
  | .num n => n != 0
  | .str s => s ≠ ""
  | .arr l => !l.isEmpty
  | .obj kvs => !kvs.isEmpty

def isObj : Json → Bool
  | .obj _ => true
  | _ => false

def isArr : Json → Bool
  | .arr _ => true
  | _ => false

/-- First-match association lookup, the model of `dict.__getitem__`/`get`
(JSON objects decoded by `json.loads` have unique keys). -/
def lookupStr : List (String × Json) → String → Option Json
  | [], _ => none
  | (k0, v) :: rest, k => if k0 = k then some v else lookupStr rest k

/-- `d.get(k)`: `none` when `d` is not a mapping or the key is absent. -/
def get : Json → String → Option Json
  | .obj kvs, k => lookupStr kvs k
  | _, _ => none

/-- `d.get(k)` with Python `None` represented as `Json.null`. -/
def getD (j : Json) (k : String) : Json := (j.get k).getD .null

end Json

/-- Python `a or b` on decoded-JSON values. -/
def pyOr (a b : Json) : Json := if a.truthy then a else b

/-- `dict` update `d[k] = v`: replace in place if the key exists, else append
(insertion order is preserved, as for Python dicts). -/
def dict_set : List (Json × Json) → Json → Json → List (Json × Json)
  | [], k, v => [(k, v)]
  | (k0, v0) :: rest, k, v =>
    if k0 = k then (k0, v) :: rest else (k0, v0) :: dict_set rest k v

/-- `dict` lookup on the canonicalized parameter mapping (keys may be any
hashable Python value, here any scalar `Json`). -/
def dict_get : List (Json × Json) → Json → Option Json
  | [], _ => none
  | (k0, v) :: rest, k => if k0 = k then some v else dict_get rest k

/-- `dict.setdefault k v`: insert at the end only when the key is absent. -/
def obj_setdefault (kvs : List (String × Json)) (k : String) (v : Json) :
    List (String × Json) :=
  if (Json.lookupStr kvs k).isSome then kvs else kvs ++ [(k, v)]

/-- Field update on a string-keyed mapping (`p["ai_hint"] = v`). -/
def obj_set : List (String × Json) → String → Json → List (String × Json)
  | [], k, v => [(k, v)]
  | (k0, v0) :: rest, k, v =>
    if k0 = k then (k0, v) :: rest else (k0, v0) :: obj_set rest k v

/-! ### Character-list string utilities

Core `String` functions such as `toLower`, `splitOn` or `replace` recurse on
byte positions and do not reduce in the kernel, so the embedding uses its own
character-list implementations of the few Python string operations needed. -/

/-- `s.lower()` (ASCII case folding, which is all the script exercises). -/
def strLower (s : String) : String := String.mk (s.data.map Char.toLower)

def starts_with_chars : List Char → List Char → Bool
  | _, [] => true
  | [], _ :: _ => false
  | c :: cs, p :: ps => c = p && starts_with_chars cs ps

def contains_chars (pat : List Char) : List Char → Bool
  | [] => pat.isEmpty
  | c :: rest => starts_with_chars (c :: rest) pat || contains_chars pat rest

/-- Python `pat in s` on strings. -/
def strContains (s pat : String) : Bool := contains_chars pat.data s.data

/-- Python `s.startswith(pat)`. -/
def strStarts (s pat : String) : Bool := starts_with_chars s.data pat.data

/-! ### Python `str()` / `repr()` of decoded-JSON values

`_single_condition_expr` interpolates values with f-strings (`str`), and
`collect_conditional_rules_from_params` lowers `str(val.get("type"))`.
`str` of a string is the string itself; containers use `repr` of their
elements.  Only the printable-character escapes are modelled. -/

def py_escape_char (q : Char) (c : Char) : String :=
  if c = '\\' then "\\\\"
  else if c = q then "\\" ++ q.toString
  else if c = '\n' then "\\n"
  else if c = '\r' then "\\r"
  else if c = '\t' then "\\t"
  else c.toString

/-- Python `repr` of a string: single quotes, switching to double quotes when
the string contains a single quote but no double quote. -/
def pyStrQuote (s : String) : String :=
  let sq : Char := Char.ofNat 39
  let q := if s.data.contains sq ∧ ¬ s.data.contains '"' then '"' else sq
  q.toString ++ String.join (s.data.map (py_escape_char q)) ++ q.toString

mutual

def pyRepr : Json → String
  | .null => "None"
  | .bool true => "True"
  | .bool false => "False"
  | .num n => toString n
  | .str s => pyStrQuote s
  | .arr l => "[" ++ String.intercalate ", " (pyReprArr l) ++ "]"
  | .obj kvs => "\x7b" ++ String.intercalate ", " (pyReprObj kvs) ++ "\x7d"

def pyReprArr : List Json → List String
  | [] => []
  | j :: r => pyRepr j :: pyReprArr r

def pyReprObj : List (String × Json) → List String
  | [] => []
  | (k, v) :: r => (pyStrQuote k ++ ": " ++ pyRepr v) :: pyReprObj r

end

/-- Python `str(v)` as used by f-string interpolation. -/
def pyStr : Json → String
  | .str s => s
  | j => pyRepr j

/-! ### `json.dumps(..., ensure_ascii=False)` -/

def hexDigitChar (n : Nat) : Char :=
  if n < 10 then Char.ofNat (48 + n) else Char.ofNat (87 + n)

def json_escape_char (c : Char) : String :=
  if c = '"' then "\\\""
  else if c = '\\' then "\\\\"
  else if c = '\n' then "\\n"
  else if c = '\r' then "\\r"
  else if c = '\t' then "\\t"
  else if c = Char.ofNat 8 then "\\b"
  else if c = Char.ofNat 12 then "\\f"
  else if c.toNat < 32 then
    "\\u00" ++ (hexDigitChar (c.toNat / 16)).toString ++
      (hexDigitChar (c.toNat % 16)).toString
  else c.toString

def json_quote (s : String) : String :=
  "\"" ++ String.join (s.data.map json_escape_char) ++ "\""

mutual

/-- `json.dumps(v, ensure_ascii=False)` with default separators. -/
def json_dumps : Json → String
  | .null => "null"
  | .bool true => "true"
  | .bool false => "false"
  | .num n => toString n
  | .str s => json_quote s
  | .arr l => "[" ++ String.intercalate ", " (json_dumps_arr l) ++ "]"
  | .obj kvs => "\x7b" ++ String.intercalate ", " (json_dumps_obj kvs) ++ "\x7d"

def json_dumps_arr : List Json → List String
  | [] => []
  | j :: r => json_dumps j :: json_dumps_arr r

def json_dumps_obj : List (String × Json) → List String
  | [] => []
  | (k, v) :: r => (json_quote k ++ ": " ++ json_dumps v) :: json_dumps_obj r

end

/-! ### Condition Flattener: `_single_condition_expr`, `display_options_to_rules` -/

/-- `_single_condition_expr` (the leading underscore of the Python name is
dropped).  One accepted value renders as an equality, strings single-quoted;
several accepted values render as membership in the `json.dumps` literal. -/
def single_condition_expr (field : String) (val : Json) : String :=
  match val with
  | .arr [v] =>
    match v with
    | .str s => field ++ " == \x27" ++ s ++ "\x27"
    | _ => field ++ " == " ++ pyStr v
  | .arr l => field ++ " IN " ++ json_dumps (.arr l)
  | .str s => field ++ " == \x27" ++ s ++ "\x27"
  | v => field ++ " == " ++ pyStr v

/-- The conjunction members built from the fields of one `show`/`hide`
mapping: a nested one-level mapping contributes one sub-condition per nested
key with a dot-joined path. -/
def conds_of_fields : List (String × Json) → List String
  | [] => []
  | (field, .obj subs) :: rest =>
    (subs.map fun p => single_condition_expr (field ++ "." ++ p.1) p.2) ++
      conds_of_fields rest
  | (field, val) :: rest => single_condition_expr field val :: conds_of_fields rest

/-- One iteration of the `for mode in ("show", "hide")` loop of
`display_options_to_rules`. -/
def mode_rule (display_options : Json) (mode action : String) (target : Json) :
    List String :=
  match display_options.get mode with
  | some (.obj fields) =>
    let conds := conds_of_fields fields
    if conds.isEmpty then []
    else
      ["IF " ++ String.intercalate " AND " conds ++ " THEN " ++ action ++
        (if target.truthy then " parameter \x27" ++ pyStr target ++ "\x27" else "")]
  | _ => []

/-- `display_options_to_rules`: rules for the `show` and `hide` modes, in
that order; non-mapping input yields no rules. -/
def display_options_to_rules (display_options : Json) (target : Json) :
    List String :=
  match display_options with
  | .obj _ =>
    mode_rule display_options "show" "SHOW" target ++
      mode_rule display_options "hide" "HIDE" target
  | _ => []

/-! ### Natural-Language Synthesizer: `generate_ai_hint_for_param` -/

def hint_collection : String := "此参数为 fixedCollection，包含嵌套字段，不要扁平化。"

def hint_url : String := "必须包含协议头 (http:// 或 https://)。支持表达式注入。"

def hint_method : String := "根据 REST 规范选择方法: 查询用 GET，创建用 POST，更新用 PUT/PATCH。"

def hint_bool : String := "布尔值：true 或 false。"

def hint_auth : String := "与鉴权相关，注意不要在公共日志中输出敏感信息。"

/-- `generate_ai_hint_for_param`.  `.lower()` on a truthy non-string `type`
field or parameter name raises `AttributeError` in Python, modelled as an
`Except.error`.  The returned value is a decoded-JSON value because the
no-heuristic fallback returns `param.get("description")`/`param.get("note")`
verbatim. -/
def generate_ai_hint_for_param (name : Json) (param : Json) :
    Except String Json := do
  let ptype ← match pyOr (param.getD "type") (.str "") with
    | .str s => pure (strLower s)
    | _ => Except.error "AttributeError: lower on non-string type"
  let name_lower ← match pyOr name (.str "") with
    | .str s => pure (strLower s)
    | _ => Except.error "AttributeError: lower on non-string name"
  let hints :=
    (if ptype = "fixedcollection" ∨ ptype = "fixed_collection" ∨
        ptype = "fixedCollection" ∨ ptype = "collection" then
      [hint_collection] else []) ++
    (if strContains name_lower "url" then [hint_url] else []) ++
    (if name_lower = "method" ∨
        (ptype = "options" ∧ (param.getD "options").truthy) then
      [hint_method] else []) ++
    (if ptype = "boolean" ∨ strStarts name_lower "is" ∨
        strStarts name_lower "has" then
      [hint_bool] else []) ++
    (if strContains name_lower "token" ∨ strContains name_lower "auth" then
      [hint_auth] else [])
  if hints.isEmpty then
    let desc := pyOr (param.getD "description") (pyOr (param.getD "note") (.str ""))
    if desc.truthy then pure desc else pure (.str "")
  else
    pure (.str (String.intercalate " " hints))

/-! ### `clean_parameter` -/

/-- `clean_parameter`: copy the fragment, `setdefault` the name when a truthy
name argument was supplied, and attach a generated `ai_hint` when the
fragment has none.  `dict(param)` on a non-mapping raises `TypeError`
(the pair-list coercion Python would also accept is not exercised by the
script's callers and is not modelled). -/
def clean_parameter (param : Json) (name : Json) : Except String Json :=
  match param with
  | .obj kvs =>
    let kvs1 := if name.truthy then obj_setdefault kvs "name" name else kvs
    let p : Json := .obj kvs1
    if (p.getD "ai_hint").truthy then pure p
    else do
      let generated ← generate_ai_hint_for_param (pyOr (p.getD "name") name) p
      if generated.truthy then pure (.obj (obj_set kvs1 "ai_hint" generated))
      else pure p
  | _ => Except.error "TypeError: param is not a mapping"

/-! ### `collect_conditional_rules_from_params`

The Python function recurses into values reached through `dict.get`, which
is not a structural descent, so the embedding threads a fuel argument;
`collect_fuel_congr` below shows any fuel at least `Json.size params` gives
the same result, and the public definition uses exactly that bound. -/

def nested_group_keys : List String :=
  ["options", "values", "fields", "properties", "collection"]

/-- The parameter-level `displayOptions` rules of one fragment: the fragment's
display spec (under any of its three accepted spellings) rendered with the
fragment's own name — or, for mapping-shaped parameter sources, the string
key — as target. -/
def collect_entry_display (pkey val : Json) : List String :=
  let display := pyOr (val.getD "displayOptions")
    (pyOr (val.getD "display_options") (val.getD "display"))
  let param_name := pyOr (val.getD "name") pkey
  if display.truthy then display_options_to_rules display param_name else []

/-- `if nested and isinstance(nested, (list, dict))`. -/
def collect_nested_arg_ok (nested : Json) : Bool :=
  nested.truthy && (nested.isArr || nested.isObj)

/-- `val.get("type") and "collection" in str(val.get("type")).lower()`. -/
def collection_typed (val : Json) : Bool :=
  (val.getD "type").truthy &&
    strContains (strLower (pyStr (val.getD "type"))) "collection"

/-- The grouped-type branch: for a fragment whose declared type mentions
`collection`, recurse into each known nesting key holding a truthy
list/mapping. -/
def collect_entry_nest (recur : Json → List String) (val : Json) :
    List String :=
  if collection_typed val then
    (nested_group_keys.map fun nk =>
      if collect_nested_arg_ok (val.getD nk) then recur (val.getD nk)
      else []).flatten
  else []

/-- `opt.get("values") or opt.get("options") or opt.get("fields") or
opt.get("properties") or []`. -/
def opt_group (opt : Json) : Json :=
  pyOr (opt.getD "values") (pyOr (opt.getD "options")
    (pyOr (opt.getD "fields") (pyOr (opt.getD "properties") (.arr []))))

/-- The `options`-list branch: recurse into the nested groups of each
mapping entry of a declared `options` list. -/
def collect_entry_opts (recur : Json → List String) (val : Json) :
    List String :=
  match val.get "options" with
  | some (.arr l2) =>
    (l2.map fun opt => if opt.isObj then recur (opt_group opt) else []).flatten
  | _ => []

/-- The body of the `for key, val in iterator` loop: the work done for one
parameter fragment, with the recursive call abstracted as `recur`. -/
def collect_entry (recur : Json → List String) (pkey val : Json) :
    List String :=
  match val with
  | .obj _ =>
    collect_entry_display pkey val ++ collect_entry_nest recur val ++
      collect_entry_opts recur val
  | _ => []

def collect_fuel : Nat → Json → List String
  | 0, _ => []
  | fuel + 1, .obj kvs =>
    (kvs.map fun kv => collect_entry (collect_fuel fuel) (.str kv.1) kv.2).flatten
  | fuel + 1, .arr l =>
    (l.map fun v => collect_entry (collect_fuel fuel) .null v).flatten
  | _ + 1, _ => []

/-- `collect_conditional_rules_from_params`: a mapping iterates its items
(string keys), a list its elements (integer indices, hence no string key);
anything else contributes nothing. -/
def collect_conditional_rules_from_params (params : Json) : List String :=
  collect_fuel (Json.size params) params

/-! ### Size lemmas and fuel irrelevance for the rule collector -/

theorem Json.size_pos (j : Json) : 1 ≤ j.size := by
  cases j <;> simp [Json.size]

theorem Json.lookupStr_size {kvs : List (String × Json)} {k : String} {v : Json}
    (h : Json.lookupStr kvs k = some v) : Json.size v ≤ Json.sizeObj kvs := by
  induction kvs with
  | nil => simp [Json.lookupStr] at h
  | cons kv rest ih =>
    obtain ⟨k0, v0⟩ := kv
    simp only [Json.lookupStr] at h
    by_cases hk : k0 = k
    · simp [hk] at h
      subst h
      simp only [Json.sizeObj]
      omega
    · simp [hk] at h
      have := ih h
      simp only [Json.sizeObj]
      omega

theorem Json.get_size {j : Json} {k : String} {v : Json}
    (h : j.get k = some v) : Json.size v < Json.size j := by
  cases j <;> simp [Json.get] at h
  case obj kvs =>
    have := Json.lookupStr_size h
    simp [Json.size]
    omega

theorem Json.getD_size_le (j : Json) (k : String) :
    Json.size (j.getD k) ≤ Json.size j := by
  unfold Json.getD
  cases h : j.get k with
  | none => simpa using Json.size_pos j
  | some v => simpa using le_of_lt (Json.get_size h)

theorem pyOr_eq_or (a b : Json) : pyOr a b = a ∨ pyOr a b = b := by
  unfold pyOr; split <;> simp

theorem Json.mem_sizeArr {j : Json} {l : List Json} (h : j ∈ l) :
    Json.size j ≤ Json.sizeArr l := by
  induction l with
  | nil => cases h
  | cons x xs ih =>
    rcases List.mem_cons.mp h with h' | h'
    · subst h'; simp only [Json.sizeArr]; omega
    · have := ih h'; simp only [Json.sizeArr]; omega

theorem Json.mem_sizeObj {kv : String × Json} {kvs : List (String × Json)}
    (h : kv ∈ kvs) : Json.size kv.2 ≤ Json.sizeObj kvs := by
  induction kvs with
  | nil => cases h
  | cons x xs ih =>
    obtain ⟨k0, v0⟩ := x
    rcases List.mem_cons.mp h with h' | h'
    · subst h'; simp only [Json.sizeObj]; omega
    · have := ih h'; simp only [Json.sizeObj]; omega

theorem opt_group_size_le (opt : Json) :
    Json.size (opt_group opt) ≤ max (Json.size opt) 2 := by
  unfold opt_group
  have hd : Json.size (Json.arr []) = 0 + 1 := by simp [Json.size, Json.sizeArr]
  have h1 := Json.getD_size_le opt "values"
  have h2 := Json.getD_size_le opt "options"
  have h3 := Json.getD_size_le opt "fields"
  have h4 := Json.getD_size_le opt "properties"
  rcases pyOr_eq_or (opt.getD "values") (pyOr (opt.getD "options")
      (pyOr (opt.getD "fields") (pyOr (opt.getD "properties") (.arr [])))) with h | h <;>
    rw [h]
  · omega
  · rcases pyOr_eq_or (opt.getD "options")
        (pyOr (opt.getD "fields") (pyOr (opt.getD "properties") (.arr []))) with h' | h' <;>
      rw [h']
    · omega
    · rcases pyOr_eq_or (opt.getD "fields")
          (pyOr (opt.getD "properties") (.arr [])) with h'' | h'' <;> rw [h'']
      · omega
      · rcases pyOr_eq_or (opt.getD "properties") (.arr []) with h3' | h3' <;> rw [h3']
        · omega
        · omega

/-- Replacing the recursive call by any function that agrees on values
no larger than the fragment leaves the per-fragment work unchanged. -/
theorem collect_entry_congr {r1 r2 : Json → List String} {pkey val : Json}
    (h : ∀ x, Json.size x ≤ Json.size val → r1 x = r2 x) :
    collect_entry r1 pkey val = collect_entry r2 pkey val := by
  cases val with
  | obj kvs =>
    unfold collect_entry
    have hnest : collect_entry_nest r1 (.obj kvs) = collect_entry_nest r2 (.obj kvs) := by
      unfold collect_entry_nest
      split
      · congr 1
        apply List.map_congr_left
        intro nk _
        split
        · exact h _ (Json.getD_size_le _ nk)
        · rfl
      · rfl
    have hopts : collect_entry_opts r1 (.obj kvs) = collect_entry_opts r2 (.obj kvs) := by
      unfold collect_entry_opts
      cases hop : (Json.obj kvs).get "options" with
      | none => rfl
      | some w =>
        cases w with
        | arr l2 =>
          simp only
          congr 1
          apply List.map_congr_left
          intro opt hopt
          split
          · apply h
            have h1 : Json.size opt ≤ Json.sizeArr l2 := Json.mem_sizeArr hopt
            have h2 : Json.size (Json.arr l2) < Json.size (Json.obj kvs) :=
              Json.get_size hop
            have h3 := opt_group_size_le opt
            have h4 : Json.size (Json.arr l2) = Json.sizeArr l2 + 1 := by
              simp [Json.size]
            have h5 : Json.size (Json.obj kvs) = Json.sizeObj kvs + 1 := by
              simp [Json.size]
            omega
          · rfl
        | null => rfl
        | bool b => rfl
        | num n => rfl
        | str s => rfl
        | obj o => rfl
    rw [hnest, hopts]
  | null => rfl
  | bool b => rfl
  | num n => rfl
  | str s => rfl
  | arr l => rfl

/-- Fuel irrelevance: any fuel at least `Json.size j` computes the same
rule list. -/
theorem collect_fuel_congr : ∀ f1 f2 j, Json.size j ≤ f1 → Json.size j ≤ f2 →
    collect_fuel f1 j = collect_fuel f2 j := by
  intro f1
  induction f1 with
  | zero =>
    intro f2 j h1 _
    exact absurd h1 (by have := Json.size_pos j; omega)
  | succ a ih =>
    intro f2 j h1 h2
    cases f2 with
    | zero => exact absurd h2 (by have := Json.size_pos j; omega)
    | succ b =>
      cases j with
      | obj kvs =>
        simp only [collect_fuel]
        congr 1
        apply List.map_congr_left
        intro kv hkv
        apply collect_entry_congr
        intro x hx
        have hm : Json.size kv.2 ≤ Json.sizeObj kvs := Json.mem_sizeObj hkv
        have hs : Json.size (Json.obj kvs) = Json.sizeObj kvs + 1 := by
          simp [Json.size]
        exact ih b x (by omega) (by omega)
      | arr l =>
        simp only [collect_fuel]
        congr 1
        apply List.map_congr_left
        intro v hv
        apply collect_entry_congr
        intro x hx
        have hm : Json.size v ≤ Json.sizeArr l := Json.mem_sizeArr hv
        have hs : Json.size (Json.arr l) = Json.sizeArr l + 1 := by
          simp [Json.size]
        exact ih b x (by omega) (by omega)
      | null => rfl
      | bool c => rfl
      | num n => rfl
      | str s => rfl

/-- With adequate fuel, the fueled collector is the public one. -/
theorem collect_fuel_eq {f : Nat} {j : Json} (h : Json.size j ≤ f) :
    collect_fuel f j = collect_conditional_rules_from_params j :=
  collect_fuel_congr f (Json.size j) j h le_rfl

/-! ### `clean_node` -/

/-- `p.get("name") or p.get("key") or p.get("id")`. -/
def derived_name (p : Json) : Json :=
  pyOr (p.getD "name") (pyOr (p.getD "key") (p.getD "id"))

/-- The mapping-shaped branch of the parameter canonicalization loop of
`clean_node`: the mapping key is passed to `clean_parameter` as the name. -/
def build_params_dict :
    List (String × Json) → List (Json × Json) → Except String (List (Json × Json))
  | [], acc => .ok acc
  | (pname, pval) :: rest, acc =>
    match clean_parameter pval (.str pname) with
    | .error e => .error e
    | .ok cp => build_params_dict rest (dict_set acc (.str pname) cp)

/-- The name assigned to a list-shaped fragment, given the mapping built so
far: the name/key/id chain when truthy, else the label, else the positional
placeholder `param_<n+1>` with `n = len(params_out)`. -/
def assigned_name (p : Json) (acc : List (Json × Json)) : Json :=
  let pn0 := derived_name p
  if pn0.truthy then pn0
  else pyOr (p.getD "label") (.str ("param_" ++ Nat.repr (acc.length + 1)))

/-- The list-shaped branch of the parameter canonicalization loop.  A
non-mapping entry is skipped; an unhashable assigned name (a list or a
mapping) raises `TypeError` at the dict assignment, after `clean_parameter`
has run. -/
def build_params_list :
    List Json → List (Json × Json) → Except String (List (Json × Json))
  | [], acc => .ok acc
  | p :: rest, acc =>
    if p.isObj then
      let pname := assigned_name p acc
      match clean_parameter p pname with
      | .error e => .error e
      | .ok cp =>
        if pname.isArr || pname.isObj then .error "TypeError: unhashable dict key"
        else build_params_list rest (dict_set acc pname cp)
    else build_params_list rest acc

/-- The list comprehension producing `required_sequence` for a list-shaped
parameter source: one entry per mapping fragment with a truthy name/key/id
chain, in declaration order (labels and placeholders do not contribute). -/
def required_sequence_of_list (l : List Json) : List Json :=
  l.filterMap fun p =>
    if p.isObj && (derived_name p).truthy then some (derived_name p) else none

/-- The de-duplication loop of `clean_node`; the Python `seen` set is
mirrored by a list with the same membership. -/
def dedup_rules_aux (seen : List String) : List String → List String
  | [] => []
  | r :: rest =>
    if r ∈ seen then dedup_rules_aux seen rest
    else r :: dedup_rules_aux (r :: seen) rest

def dedup_rules (rules : List String) : List String := dedup_rules_aux [] rules

/-- The nine-way `or` chain choosing the raw parameter source. -/
def raw_params_of (node : Json) : Json :=
  pyOr (node.getD "properties") (pyOr (node.getD "parameters")
    (pyOr (node.getD "options") (pyOr (node.getD "inputs")
      (pyOr (node.getD "parametersList") (pyOr (node.getD "fields")
        (pyOr (node.getD "attributes") (pyOr (node.getD "props")
          (node.getD "params"))))))))

/-- The rule aggregation of `clean_node`: node-level display rules (targeting
the node's own name) followed by the recursive parameter-level collection
over `raw_params or []`. -/
def aggregate_rules (node : Json) (raw_params : Json) : List String :=
  let node_display := pyOr (node.getD "displayOptions")
    (pyOr (node.getD "display_options") (node.getD "display"))
  (if node_display.truthy then
    display_options_to_rules node_display (node.getD "name")
  else []) ++
    collect_conditional_rules_from_params (pyOr raw_params (.arr []))

structure ConfigurationLogic where
  required_sequence : List Json
  conditional_rules : List String
deriving DecidableEq

/-- The normalized record built by `clean_node` (a Python dict with this
fixed key set). -/
structure CleanedNode where
  node_id : Json
  name : Json
  version : Json
  semantic_context : Json
  parameters : List (Json × Json)
  configuration_logic : ConfigurationLogic
  workflow_json_snippet : Option Json
deriving DecidableEq

/-- The `isinstance` dispatch of the parameter canonicalization: a mapping
iterates its items, a list its entries, anything else yields an empty
mapping. -/
def build_params (raw_params : Json) : Except String (List (Json × Json)) :=
  match raw_params with
  | .obj kvs => build_params_dict kvs []
  | .arr l => build_params_list l []
  | _ => .ok []

/-- `required_sequence`: declaration order for a list-shaped source, else the
canonicalized mapping's key order. -/
def required_sequence_of (raw_params : Json)
    (params_out : List (Json × Json)) : List Json :=
  match raw_params with
  | .arr l => required_sequence_of_list l
  | _ => params_out.map Prod.fst

/-- `clean_node`.  The callers only pass mappings (the locator and the
single-node fallback filter for them); on anything else `node.get` would
raise `AttributeError`. -/
def clean_node (node : Json) : Except String CleanedNode :=
  match node with
  | .obj _ =>
    match build_params (raw_params_of node) with
    | .error e => .error e
    | .ok params_out =>
      let node_id := pyOr (node.getD "node_id") (pyOr (node.getD "id")
        (pyOr (node.getD "name") (node.getD "type")))
      .ok
        { node_id := node_id
          name := pyOr (node.getD "name") node_id
          version := pyOr (node.getD "version")
            (pyOr (node.getD "versionId") (.num 1))
          semantic_context := pyOr (node.getD "description")
            (pyOr (node.getD "summary") (pyOr (node.getD "note") (.str "")))
          parameters := params_out
          configuration_logic :=
            { required_sequence := required_sequence_of (raw_params_of node) params_out
              conditional_rules :=
                dedup_rules (aggregate_rules node (raw_params_of node)) }
          workflow_json_snippet :=
            if (node.getD "workflow_json_snippet").truthy then
              some (node.getD "workflow_json_snippet")
            else none }
  | _ => .error "AttributeError: node is not a mapping"

/-! ### Node Locator and the processing run -/

def container_keys : List String := ["nodes", "items", "resources", "elements"]

def node_like_keys : List String :=
  ["name", "displayOptions", "properties", "parameters", "credentials"]

/-- The `for key in ("nodes", "items", "resources", "elements")` search for a
container key holding a list. -/
def first_container (obj : Json) : List String → Option (List Json)
  | [] => none
  | k :: ks =>
    match obj.get k with
    | some (.arr l) => some l
    | _ => first_container obj ks

/-- `find_nodes_in_object`: a list yields its mapping entries; a mapping is
searched for a conventional container key holding a list, else returned as a
single node when it has a node-like field; anything else yields nothing. -/
def find_nodes_in_object (obj : Json) : List Json :=
  match obj with
  | .arr l => l.filter Json.isObj
  | .obj _ =>
    match first_container obj container_keys with
    | some l => l.filter Json.isObj
    | none =>
      if node_like_keys.any (fun k => (obj.get k).isSome) then [obj] else []
  | _ => []

/-- The node-selection step of `process_all_sources`: a top-level list keeps
its mapping entries directly; otherwise the locator runs and — when it finds
nothing and the document is a mapping — the whole mapping is used as a
single node. -/
def select_nodes (data : Json) : List Json :=
  match data with
  | .arr l => l.filter Json.isObj
  | _ =>
    let nodes := find_nodes_in_object data
    if nodes.isEmpty && data.isObj then [data] else nodes

def bad_filename_char (c : Char) : Bool :=
  c = '\\' || c = '/' || c = ':' || c = '*' || c = '?' || c = '"' ||
    c = '<' || c = '>' || c = '|'

/-- The substitution `re.sub(r"[\\/:*?\"<>|]+", "_", ...)`: a run of
forbidden characters collapses to one underscore (`inRun` tracks whether the
previous character belonged to a run). -/
def squash_bad_chars (inRun : Bool) : List Char → List Char
  | [] => []
  | c :: rest =>
    if bad_filename_char c then
      (if inRun then [] else ['_']) ++ squash_bad_chars true rest
    else c :: squash_bad_chars false rest

/-- `sanitize_filename`. -/
def sanitize_filename (name : String) : String :=
  let base := if name = "" then "unnamed_node" else name
  let subbed := String.mk (squash_bad_chars false base.data)
  String.mk (subbed.data.map fun c => if c = ' ' then '_' else c)

/-- One iteration of the per-node loop of `process_all_sources`: normalize
and derive the output filename (both inside the `try`; `re.sub` on a truthy
non-string name raises `TypeError`). -/
def per_node (idx : Nat) (node : Json) : Except String (String × CleanedNode) :=
  match clean_node node with
  | .error e => .error e
  | .ok cleaned =>
    match pyOr cleaned.name (pyOr cleaned.node_id
        (.str ("node_" ++ Nat.repr idx))) with
    | .str s => .ok (sanitize_filename s ++ ".json", cleaned)
    | _ => .error "TypeError: expected string or bytes-like object"

/-- The observable outcome of the per-node loop: the per-node files written,
the aggregate (`master`) list, and the failure log lines with their
one-based node indices. -/
structure ProcessResult where
  files : List (String × CleanedNode)
  master : List CleanedNode
  logs : List (Nat × String)
deriving DecidableEq

/-- The `for idx, node in enumerate(nodes, start=1)` loop: a failure is
caught, logged with the node's index, and the record contributes to neither
output; processing continues with the remaining records. -/
def process_nodes_loop : Nat → List Json → ProcessResult
  | _, [] => ⟨[], [], []⟩
  | idx, n :: rest =>
    let r := process_nodes_loop (idx + 1) rest
    match per_node idx n with
    | .ok fc => ⟨fc :: r.files, fc.2 :: r.master, r.logs⟩
    | .error e => ⟨r.files, r.master, (idx, e) :: r.logs⟩

/-- The run on decoded source JSON: select the node records and process
them. -/
def run_on_data (data : Json) : ProcessResult :=
  process_nodes_loop 1 (select_nodes data)

/-- `found_any` is set exactly when a record is fully processed, so the
zero-nodes report (`"No nodes were found in source files."`) is printed iff
the aggregate output is empty. -/
def reports_zero_nodes (r : ProcessResult) : Bool := r.master.isEmpty

/-! ### Decimal rendering is injective

`str(len(params_out) + 1)` builds the positional placeholder names, so the
uniqueness analysis of the name-derivation fallback needs injectivity of
`Nat.repr`. -/

/-- Decimal reader, the left inverse of `Nat.repr`. -/
def read_digits : Nat → List Char → Nat
  | acc, [] => acc
  | acc, c :: rest => read_digits (acc * 10 + (c.toNat - 48)) rest

theorem read_digits_nil (acc : Nat) : read_digits acc [] = acc := rfl

theorem read_digits_cons (acc : Nat) (c : Char) (rest : List Char) :
    read_digits acc (c :: rest) = read_digits (acc * 10 + (c.toNat - 48)) rest :=
  rfl

theorem read_digits_append (acc : Nat) (xs ys : List Char) :
    read_digits acc (xs ++ ys) = read_digits (read_digits acc xs) ys := by
  induction xs generalizing acc with
  | nil => rfl
  | cons c rest ih =>
    rw [List.cons_append, read_digits_cons, read_digits_cons, ih]

theorem digitChar_toNat : ∀ d : Nat, d < 10 → (Nat.digitChar d).toNat = 48 + d := by
  decide

theorem toDigitsCore_append (fuel n : Nat) (ds : List Char) :
    Nat.toDigitsCore 10 fuel n ds = Nat.toDigitsCore 10 fuel n [] ++ ds := by
  induction fuel generalizing n ds with
  | zero => rfl
  | succ f ih =>
    simp only [Nat.toDigitsCore]
    split
    · rfl
    · rw [ih (n / 10) (Nat.digitChar (n % 10) :: ds),
        ih (n / 10) [Nat.digitChar (n % 10)]]
      simp

theorem read_toDigitsCore :
    ∀ fuel n, n < fuel → read_digits 0 (Nat.toDigitsCore 10 fuel n []) = n := by
  intro fuel
  induction fuel with
  | zero => omega
  | succ f ih =>
    intro n hn
    simp only [Nat.toDigitsCore]
    split
    · next h0 =>
      have hd : n % 10 < 10 := Nat.mod_lt n (by omega)
      rw [read_digits_cons, read_digits_nil, digitChar_toNat (n % 10) hd]
      omega
    · next h0 =>
      rw [toDigitsCore_append, read_digits_append]
      have hlt : n / 10 < f := by
        have h1 : n / 10 < n := Nat.div_lt_self (by omega) (by omega)
        omega
      rw [ih (n / 10) hlt]
      have hd : n % 10 < 10 := Nat.mod_lt n (by omega)
      rw [read_digits_cons, read_digits_nil, digitChar_toNat (n % 10) hd]
      omega

theorem read_repr (n : Nat) : read_digits 0 (Nat.repr n).data = n := by
  have : (Nat.repr n).data = Nat.toDigitsCore 10 (n + 1) n [] := rfl
  rw [this]
  exact read_toDigitsCore (n + 1) n (Nat.lt_succ_self n)

theorem Nat.repr_inj {m n : Nat} (h : Nat.repr m = Nat.repr n) : m = n := by
  have := congrArg (fun s => read_digits 0 s.data) h
  simpa [read_repr] using this

/-! ### Dict-update lemmas -/

theorem dict_get_set_self (m : List (Json × Json)) (k v : Json) :
    dict_get (dict_set m k v) k = some v := by
  induction m with
  | nil => simp [dict_set, dict_get]
  | cons kv rest ih =>
    obtain ⟨k0, v0⟩ := kv
    by_cases hk : k0 = k
    · simp [dict_set, dict_get, hk]
    · simp [dict_set, dict_get, hk, ih]

theorem dict_get_set_ne (m : List (Json × Json)) {k k' : Json} (v : Json)
    (h : k' ≠ k) : dict_get (dict_set m k' v) k = dict_get m k := by
  induction m with
  | nil => simp [dict_set, dict_get, h]
  | cons kv rest ih =>
    obtain ⟨k0, v0⟩ := kv
    by_cases hk : k0 = k'
    · subst hk
      simp [dict_set, dict_get, h]
    · have h2 : k ≠ k' := fun hh => h hh.symm
      by_cases hk2 : k0 = k
      · subst hk2
        simp [dict_set, dict_get, hk, h2]
      · simp [dict_set, dict_get, hk, hk2, ih]

theorem dict_set_length (m : List (Json × Json)) (k v : Json) :
    (dict_set m k v).length =
      if (dict_get m k).isSome then m.length else m.length + 1 := by
  induction m with
  | nil => simp [dict_set, dict_get]
  | cons kv rest ih =>
    obtain ⟨k0, v0⟩ := kv
    by_cases hk : k0 = k
    · simp [dict_set, dict_get, hk]
    · simp only [dict_set, dict_get, if_neg hk, List.length_cons, ih]
      split <;> simp

/-! ### The de-duplication loop keeps exactly the first occurrences -/

/-- First-occurrence de-duplication in its canonical recursive form: keep the
head, drop its later copies, recurse. -/
def first_occur_dedup : List String → List String
  | [] => []
  | x :: r => x :: first_occur_dedup (r.filter fun y => decide (y ≠ x))
termination_by l => l.length
decreasing_by
  simp only [List.length_cons]
  exact Nat.lt_succ_of_le (List.length_filter_le _ _)

theorem first_occur_dedup_nil : first_occur_dedup [] = [] := by
  rw [first_occur_dedup]

theorem first_occur_dedup_cons (x : String) (r : List String) :
    first_occur_dedup (x :: r) =
      x :: first_occur_dedup (r.filter fun y => decide (y ≠ x)) := by
  rw [first_occur_dedup]

theorem mem_of_mem_first_occur :
    ∀ l : List String, ∀ y ∈ first_occur_dedup l, y ∈ l := by
  intro l
  induction l using first_occur_dedup.induct with
  | case1 => simp [first_occur_dedup_nil]
  | case2 x r ih =>
    intro y hy
    rw [first_occur_dedup_cons] at hy
    rcases List.mem_cons.mp hy with h | h
    · simp [h]
    · exact List.mem_cons_of_mem x (List.mem_filter.mp (ih y h)).1

theorem nodup_first_occur : ∀ l : List String, (first_occur_dedup l).Nodup := by
  intro l
  induction l using first_occur_dedup.induct with
  | case1 => simp [first_occur_dedup_nil]
  | case2 x r ih =>
    rw [first_occur_dedup_cons]
    refine List.nodup_cons.mpr ⟨?_, ih⟩
    intro hx
    have := (List.mem_filter.mp (mem_of_mem_first_occur _ x hx)).2
    simp at this

theorem dedup_rules_aux_eq :
    ∀ (l seen : List String),
      dedup_rules_aux seen l =
        first_occur_dedup (l.filter fun r => decide (r ∉ seen)) := by
  intro l
  induction l with
  | nil => intro seen; simp [dedup_rules_aux, first_occur_dedup_nil]
  | cons r rest ih =>
    intro seen
    by_cases hm : r ∈ seen
    · have hd : decide (r ∉ seen) = false := by simp [hm]
      simp only [dedup_rules_aux, if_pos hm, List.filter_cons, hd,
        Bool.false_eq_true, if_false]
      exact ih seen
    · have hd : decide (r ∉ seen) = true := by simp [hm]
      simp only [dedup_rules_aux, if_neg hm, List.filter_cons, hd, if_true]
      rw [first_occur_dedup_cons, List.filter_filter, ih (r :: seen)]
      have hf : List.filter (fun y => decide (y ∉ r :: seen)) rest =
          List.filter (fun a => decide (a ≠ r) && decide (a ∉ seen)) rest := by
        apply List.filter_congr
        intro y _
        by_cases hy1 : y = r <;> by_cases hy2 : y ∈ seen <;>
          simp [hy1, hy2, List.mem_cons]
      rw [hf]

theorem dedup_rules_eq_first_occur (l : List String) :
    dedup_rules l = first_occur_dedup l := by
  rw [dedup_rules, dedup_rules_aux_eq l []]
  congr 1
  apply List.filter_eq_self.mpr
  intro a _
  simp

theorem dedup_rules_nodup (l : List String) : (dedup_rules l).Nodup := by
  rw [dedup_rules_eq_first_occur]; exact nodup_first_occur l

theorem mem_dedup_rules_aux {r : String} :
    ∀ (l seen : List String), r ∈ l → r ∈ seen ∨ r ∈ dedup_rules_aux seen l := by
  intro l
  induction l with
  | nil => intro seen h; cases h
  | cons x rest ih =>
    intro seen h
    rcases List.mem_cons.mp h with h' | h'
    · subst h'
      by_cases hm : r ∈ seen
      · exact Or.inl hm
      · simp [dedup_rules_aux, hm]
    · by_cases hm : x ∈ seen
      · simpa [dedup_rules_aux, hm] using ih seen h'
      · rcases ih (x :: seen) h' with h'' | h''
        · rcases List.mem_cons.mp h'' with h3 | h3
          · subst h3; simp [dedup_rules_aux, hm]
          · exact Or.inl h3
        · simp [dedup_rules_aux, hm, h'']

theorem mem_dedup_rules {r : String} {l : List String} (h : r ∈ l) :
    r ∈ dedup_rules l := by
  rcases mem_dedup_rules_aux l [] h with h' | h'
  · cases h'
  · exact h'

/-! ### Closed form of the per-node loop -/

theorem process_nodes_loop_closed (ns : List Json) : ∀ idx : Nat,
    process_nodes_loop idx ns =
      { files := (List.enumFrom idx ns).filterMap fun p => (per_node p.1 p.2).toOption
        master := (List.enumFrom idx ns).filterMap fun p =>
          (per_node p.1 p.2).toOption.map Prod.snd
        logs := (List.enumFrom idx ns).filterMap fun p =>
          match per_node p.1 p.2 with
          | .error e => some (p.1, e)
          | .ok _ => none } := by
  induction ns with
  | nil => intro idx; rfl
  | cons n rest ih =>
    intro idx
    simp only [process_nodes_loop, ih (idx + 1), List.enumFrom, List.filterMap_cons]
    cases hp : per_node idx n <;> simp [Except.toOption]

/-! ### Membership lemmas for the rule collector and `clean_node` -/

theorem mem_flatten_of_mem_map {α β : Type} {f : α → List β} {l : List α}
    {x : α} {b : β} (hx : x ∈ l) (hb : b ∈ f x) : b ∈ (l.map f).flatten :=
  List.mem_flatten.mpr ⟨f x, List.mem_map_of_mem f hx, hb⟩

/-- The per-fragment work with the public collector as the recursive call. -/
def collect_entry_top (pkey val : Json) : List String :=
  collect_entry collect_conditional_rules_from_params pkey val

theorem collect_entry_fuel_eq {f : Nat} {pkey val : Json}
    (h : Json.size val ≤ f) :
    collect_entry (collect_fuel f) pkey val = collect_entry_top pkey val := by
  apply collect_entry_congr
  intro x hx
  exact collect_fuel_congr f (Json.size x) x (le_trans hx h) le_rfl

/-- A fragment of a mapping-shaped source contributes its rules to the
collection. -/
theorem mem_collect_obj {kvs : List (String × Json)} {k : String} {v : Json}
    {r : String} (hm : (k, v) ∈ kvs)
    (hr : r ∈ collect_entry_top (.str k) v) :
    r ∈ collect_conditional_rules_from_params (.obj kvs) := by
  show r ∈ collect_fuel (Json.size (.obj kvs)) (.obj kvs)
  have hs : Json.size (.obj kvs) = Json.sizeObj kvs + 1 := by simp [Json.size]
  rw [hs]
  simp only [collect_fuel]
  refine mem_flatten_of_mem_map hm ?_
  rw [collect_entry_fuel_eq (Json.mem_sizeObj hm)]
  exact hr

/-- A fragment of a list-shaped source contributes its rules to the
collection. -/
theorem mem_collect_arr {l : List Json} {v : Json} {r : String} (hm : v ∈ l)
    (hr : r ∈ collect_entry_top .null v) :
    r ∈ collect_conditional_rules_from_params (.arr l) := by
  show r ∈ collect_fuel (Json.size (.arr l)) (.arr l)
  have hs : Json.size (.arr l) = Json.sizeArr l + 1 := by simp [Json.size]
  rw [hs]
  simp only [collect_fuel]
  refine mem_flatten_of_mem_map hm ?_
  rw [collect_entry_fuel_eq (Json.mem_sizeArr hm)]
  exact hr

/-- For a collection-typed fragment, the rules collected from the structure
under a known nesting key holding a truthy list/mapping are part of the
fragment's rules. -/
theorem mem_entry_nest {recur : Json → List String} {pkey val : Json}
    {nk : String} {r : String}
    (hty : collection_typed val = true)
    (hnk : nk ∈ nested_group_keys)
    (hok : collect_nested_arg_ok (val.getD nk) = true)
    (hr : r ∈ recur (val.getD nk)) :
    r ∈ collect_entry recur pkey val := by
  rcases val with _ | b | n | s | l | kvs
  · simp [collection_typed, Json.getD, Json.get, Json.truthy] at hty
  · simp [collection_typed, Json.getD, Json.get, Json.truthy] at hty
  · simp [collection_typed, Json.getD, Json.get, Json.truthy] at hty
  · simp [collection_typed, Json.getD, Json.get, Json.truthy] at hty
  · simp [collection_typed, Json.getD, Json.get, Json.truthy] at hty
  · unfold collect_entry
    refine List.mem_append.mpr (Or.inl (List.mem_append.mpr (Or.inr ?_)))
    unfold collect_entry_nest
    rw [if_pos hty]
    refine mem_flatten_of_mem_map hnk ?_
    rw [if_pos hok]
    exact hr

/-- Every rule of the parameter-level collection survives into the node's
de-duplicated `conditional_rules`. -/
theorem mem_conditional_rules_of_collect {node : Json} {c : CleanedNode}
    {r : String} (h : clean_node node = .ok c)
    (hr : r ∈ collect_conditional_rules_from_params
      (pyOr (raw_params_of node) (.arr []))) :
    r ∈ c.configuration_logic.conditional_rules := by
  cases node with
  | obj kvs0 =>
    unfold clean_node at h
    cases hb : build_params (raw_params_of (Json.obj kvs0)) with
    | error e => rw [hb] at h; cases h
    | ok params_out =>
      rw [hb] at h
      dsimp only at h
      have hc := (Except.ok.injEq _ _).mp h
      subst hc
      dsimp only [aggregate_rules]
      exact mem_dedup_rules (List.mem_append.mpr (Or.inr hr))
  | null => cases h
  | bool b => cases h
  | num n => cases h
  | str s => cases h
  | arr l => cases h

/-- Projections of a successful `clean_node` run. -/
theorem clean_node_ok_parts {node : Json} {c : CleanedNode}
    (h : clean_node node = .ok c) :
    build_params (raw_params_of node) = .ok c.parameters ∧
    c.semantic_context = pyOr (node.getD "description")
      (pyOr (node.getD "summary") (pyOr (node.getD "note") (.str ""))) ∧
    c.configuration_logic.conditional_rules =
      dedup_rules (aggregate_rules node (raw_params_of node)) ∧
    c.configuration_logic.required_sequence =
      required_sequence_of (raw_params_of node) c.parameters := by
  cases node with
  | obj kvs0 =>
    unfold clean_node at h
    cases hb : build_params (raw_params_of (Json.obj kvs0)) with
    | error e => rw [hb] at h; cases h
    | ok params_out =>
      rw [hb] at h
      obtain ⟨cid, cname, cver, csem, cparams, clogic, csnip⟩ := c
      obtain ⟨crs, ccr⟩ := clogic
      simp only [Except.ok.injEq, CleanedNode.mk.injEq,
        ConfigurationLogic.mk.injEq] at h
      obtain ⟨h1, h2, h3, h4, h5, ⟨h6, h7⟩, h8⟩ := h
      subst h4
      subst h5
      subst h6
      subst h7
      exact ⟨rfl, rfl, rfl, rfl⟩
  | null => cases h
  | bool b => cases h
  | num n => cases h
  | str s => cases h
  | arr l => cases h

/-! ### Claim C4 -/

/-- Claim C4: for every well-formed visibility spec, a field with exactly one
accepted value renders as an equality condition `field == value` with string
values single-quoted, and a field with multiple accepted values renders as
`field IN [...]` with the `json.dumps` literal list; in particular the input
`{"show": {"resource": {"operation": ["create", "update"]}}}` with target
`"fields"` yields exactly the rule
`IF resource.operation IN ["create", "update"] THEN SHOW parameter 'fields'`
with the nested field path dot-joined. -/
theorem c4_condition_rendering :
    (∀ (field : String) (v : Json),
      single_condition_expr field (.arr [v]) =
        match v with
        | .str s => field ++ " == \x27" ++ s ++ "\x27"
        | _ => field ++ " == " ++ pyStr v) ∧
    (∀ (field : String) (vs : List Json), 2 ≤ vs.length →
      single_condition_expr field (.arr vs) =
        field ++ " IN " ++ json_dumps (.arr vs)) ∧
    display_options_to_rules
      (.obj [("show", .obj [("resource", .obj [("operation",
        .arr [.str "create", .str "update"])])])]) (.str "fields") =
      ["IF resource.operation IN [\"create\", \"update\"] THEN SHOW parameter \x27fields\x27"] := by
  refine ⟨?_, ?_, ?_⟩
  · intro field v
    cases v <;> rfl
  · intro field vs h
    cases vs with
    | nil => simp at h
    | cons v1 rest =>
      cases rest with
      | nil => simp at h
      | cons v2 rest2 => rfl
  · decide

/-- Witness for C4 at concrete inputs. -/
theorem c4_condition_rendering_witness :
    single_condition_expr "mode" (.arr [.str "live"]) = "mode == \x27live\x27" ∧
    single_condition_expr "resource.operation"
        (.arr [.str "create", .str "update"]) =
      "resource.operation IN [\"create\", \"update\"]" := by
  constructor
  · rw [c4_condition_rendering.1 "mode" (.str "live")]
    decide
  · rw [c4_condition_rendering.2.1 "resource.operation"
      [.str "create", .str "update"] (by decide)]
    decide

/-! ### Claim C9 -/

def slack_node : Json := .obj [("name", .str "Slack"),
  ("parameters", .arr [.obj [("name", .str "token"), ("type", .str "string")]])]

/-- Claim C9: for the raw node
`{"name": "Slack", "parameters": [{"name":"token","type":"string"}]}`, the
normalized `token` parameter carries the authentication-sensitivity hint
(the name containing `token` triggers the sensitive-value warning, here the
exact `hint_auth` text) and the node's `required_sequence` is `["token"]`. -/
theorem c9_slack_scenario :
    clean_node slack_node =
      .ok { node_id := .str "Slack", name := .str "Slack", version := .num 1,
            semantic_context := .str "",
            parameters := [(.str "token", .obj [("name", .str "token"),
              ("type", .str "string"), ("ai_hint", .str hint_auth)])],
            configuration_logic :=
              { required_sequence := [.str "token"], conditional_rules := [] },
            workflow_json_snippet := none } := by
  decide

/-! ### Claim C1 -/

theorem first_container_none {o : Json} : ∀ ks : List String,
    (∀ k ∈ ks, ∀ l : List Json, o.get k ≠ some (.arr l)) →
    first_container o ks = none := by
  intro ks
  induction ks with
  | nil => intro _; rfl
  | cons k rest ih =>
    intro h
    unfold first_container
    cases hg : o.get k with
    | none => exact ih fun k' hk' => h k' (List.mem_cons_of_mem _ hk')
    | some w =>
      cases w with
      | arr l => exact absurd hg (h k (List.mem_cons_self _ _) l)
      | null => exact ih fun k' hk' => h k' (List.mem_cons_of_mem _ hk')
      | bool b => exact ih fun k' hk' => h k' (List.mem_cons_of_mem _ hk')
      | num n => exact ih fun k' hk' => h k' (List.mem_cons_of_mem _ hk')
      | str s => exact ih fun k' hk' => h k' (List.mem_cons_of_mem _ hk')
      | obj kvs => exact ih fun k' hk' => h k' (List.mem_cons_of_mem _ hk')

def c1_data : Json := .obj [("foo", .num 1)]

/-- Counterexample to claim C1: on `{"foo": 1}` the Node Locator does return
an empty list, but the run does not report zero nodes and does produce
output: `process_all_sources` falls back to treating the whole mapping as a
single node, writes one per-node file and reports one processed node. -/
theorem c1_counterexample :
    find_nodes_in_object c1_data = [] ∧
    select_nodes c1_data = [c1_data] ∧
    (run_on_data c1_data).files.length = 1 ∧
    (run_on_data c1_data).master.length = 1 ∧
    reports_zero_nodes (run_on_data c1_data) = false := by
  decide

/-- Claim C1 (amended): for every top-level mapping with no recognized
container key holding a list and none of the node-like fields, the Node
Locator returns an empty list — but the run then falls back to treating the
mapping itself as the single selected node (so it does not, in general,
report zero nodes or produce no files). -/
theorem c1_amended (kvs : List (String × Json))
    (hcont : ∀ k ∈ container_keys, ∀ l : List Json,
      Json.get (.obj kvs) k ≠ some (.arr l))
    (hnode : ∀ k ∈ node_like_keys, Json.get (.obj kvs) k = none) :
    find_nodes_in_object (.obj kvs) = [] ∧
    select_nodes (.obj kvs) = [.obj kvs] := by
  have hfc : first_container (.obj kvs) container_keys = none :=
    first_container_none container_keys hcont
  have hany : node_like_keys.any (fun k => ((Json.obj kvs).get k).isSome) = false := by
    apply List.any_eq_false.mpr
    intro k hk
    rw [hnode k hk]
    simp
  have hfind : find_nodes_in_object (.obj kvs) = [] := by
    unfold find_nodes_in_object
    rw [hfc, hany]
    rfl
  refine ⟨hfind, ?_⟩
  simp [select_nodes, hfind, Json.isObj]

/-- Witness for the amended C1 at `{"foo": 1}`. -/
theorem c1_amended_witness :
    find_nodes_in_object (.obj [("foo", .num 1)]) = [] ∧
    select_nodes (.obj [("foo", .num 1)]) = [.obj [("foo", .num 1)]] := by
  apply c1_amended
  · intro k hk l h
    simp only [container_keys, List.mem_cons, List.not_mem_nil, or_false] at hk
    rcases hk with rfl | rfl | rfl | rfl <;>
      simp [Json.get, Json.lookupStr] at h
  · intro k hk
    simp only [node_like_keys, List.mem_cons, List.not_mem_nil, or_false] at hk
    rcases hk with rfl | rfl | rfl | rfl | rfl <;> rfl

/-! ### Claim C2 -/

def str_replace_fuel (pat rep : List Char) : Nat → List Char → List Char
  | 0, cs => cs
  | _ + 1, [] => []
  | f + 1, c :: rest =>
    if starts_with_chars (c :: rest) pat && !pat.isEmpty then
      rep ++ str_replace_fuel pat rep f (List.drop pat.length (c :: rest))
    else c :: str_replace_fuel pat rep f rest

def str_replace (s pat rep : String) : String :=
  String.mk (str_replace_fuel pat.data rep.data s.data.length s.data)

def strip_tags_chars : Bool → List Char → List Char
  | _, [] => []
  | true, c :: rest =>
    if c = '>' then strip_tags_chars false rest else strip_tags_chars true rest
  | false, c :: rest =>
    if c = '<' then strip_tags_chars true rest else c :: strip_tags_chars false rest

def is_space_char (c : Char) : Bool := c = ' ' || c = '\n' || c = '\t' || c = '\r'

def str_trim (s : String) : String :=
  String.mk (((s.data.dropWhile is_space_char).reverse.dropWhile
    is_space_char).reverse)

/-- Modelled from the spec: the Text Sanitizer transformation of spec
section 4.1 — paired code markup to a fixed-width delimiter, paired bold
markup to emphasis delimiters, line-break markup and literal newlines to
single spaces, anchor markup to its inner text, remaining markup tags
stripped, result trimmed.  `process_nodes.py` contains no such sanitizer;
this definition exists only to compare `clean_node`'s `semantic_context`
against the spec's description of it. -/
def sanitize_text_spec (s : String) : String :=
  let s := str_replace s "<code>" "`"
  let s := str_replace s "</code>" "`"
  let s := str_replace s "<b>" "**"
  let s := str_replace s "</b>" "**"
  let s := str_replace s "<strong>" "**"
  let s := str_replace s "</strong>" "**"
  let s := str_replace s "<br>" " "
  let s := str_replace s "<br/>" " "
  let s := str_replace s "\n" " "
  let s := String.mk (strip_tags_chars false s.data)
  str_trim s

def c2_node : Json := .obj [("name", .str "X"), ("description", .str "a\nb")]

/-- Counterexample to claim C2: `clean_node` copies the top-level description
verbatim into `semantic_context`; for the description `"a\nb"` the spec's
Text Sanitizer transformation yields `"a b"` (newline replaced by a space),
which differs from the stored `"a\nb"`. -/
theorem c2_counterexample :
    (clean_node c2_node).map (fun c => c.semantic_context) = .ok (.str "a\nb") ∧
    sanitize_text_spec "a\nb" = "a b" ∧
    ("a\nb" : String) ≠ "a b" := by
  refine ⟨by decide, by decide, by decide⟩

/-- Claim C2 (amended): the normalized record's `semantic_context` equals the
node's top-level description taken verbatim — the first truthy of
`description`, `summary`, `note`, else the empty string — with no sanitizer
transformation applied. -/
theorem c2_amended {node : Json} {c : CleanedNode}
    (h : clean_node node = .ok c) :
    c.semantic_context = pyOr (node.getD "description")
      (pyOr (node.getD "summary") (pyOr (node.getD "note") (.str ""))) :=
  (clean_node_ok_parts h).2.1

def c2_cleaned : CleanedNode :=
  { node_id := .str "X", name := .str "X", version := .num 1,
    semantic_context := .str "a\nb", parameters := [],
    configuration_logic := { required_sequence := [], conditional_rules := [] },
    workflow_json_snippet := none }

/-- Witness for the amended C2 at a concrete node. -/
theorem c2_amended_witness :
    c2_cleaned.semantic_context = pyOr (c2_node.getD "description")
      (pyOr (c2_node.getD "summary") (pyOr (c2_node.getD "note") (.str ""))) :=
  @c2_amended c2_node c2_cleaned (by decide)

/-! ### Claim C3 -/

/-- Claim C3: the `conditional_rules` list of every normalized node contains
no duplicate rule strings, and equals the first-occurrence de-duplication of
the aggregated rule sequence — one instance per distinct rule, at the
position where the rule first occurred in the aggregation order. -/
theorem c3_dedup {node : Json} {c : CleanedNode}
    (h : clean_node node = .ok c) :
    c.configuration_logic.conditional_rules.Nodup ∧
    c.configuration_logic.conditional_rules =
      first_occur_dedup (aggregate_rules node (raw_params_of node)) := by
  obtain ⟨-, -, h3, -⟩ := clean_node_ok_parts h
  rw [h3]
  exact ⟨dedup_rules_nodup _, dedup_rules_eq_first_occur _⟩

def c3_frag : Json :=
  .obj [("displayOptions", .obj [("show", .obj [("mode", .arr [.str "a"])])])]

def c3_node : Json := .obj [("name", .str "N"),
  ("parameters", .arr [c3_frag, c3_frag])]

def c3_cleaned : CleanedNode :=
  { node_id := .str "N", name := .str "N", version := .num 1,
    semantic_context := .str "",
    parameters :=
      [(.str "param_1", .obj [("displayOptions",
          .obj [("show", .obj [("mode", .arr [.str "a"])])]),
          ("name", .str "param_1")]),
        (.str "param_2", .obj [("displayOptions",
          .obj [("show", .obj [("mode", .arr [.str "a"])])]),
          ("name", .str "param_2")])],
    configuration_logic :=
      { required_sequence := [],
        conditional_rules := ["IF mode == \x27a\x27 THEN SHOW"] },
    workflow_json_snippet := none }

/-- Witness for C3: a node whose two unnamed fragments render the same rule
twice keeps exactly one instance. -/
theorem c3_dedup_witness :
    c3_cleaned.configuration_logic.conditional_rules.Nodup ∧
    c3_cleaned.configuration_logic.conditional_rules =
      first_occur_dedup (aggregate_rules c3_node (raw_params_of c3_node)) :=
  @c3_dedup c3_node c3_cleaned (by decide)

/-! ### Claim C5 -/

/-- The fragments iterated by the collector: the values of a mapping or the
entries of a list. -/
def json_entries : Json → List Json
  | .obj kvs => kvs.map Prod.snd
  | .arr l => l
  | _ => []

/-- For a fragment with a declared `options` list, the rules collected from
an entry's nested group (`values`/`options`/`fields`/`properties`, else the
empty default) are part of the fragment's rules. -/
theorem mem_entry_opts {recur : Json → List String} {pkey val : Json}
    {l2 : List Json} {opt : Json} {r : String}
    (hop : val.get "options" = some (.arr l2))
    (hmem : opt ∈ l2) (hobj : opt.isObj = true)
    (hr : r ∈ recur (opt_group opt)) :
    r ∈ collect_entry recur pkey val := by
  rcases val with _ | b | n | s | l | kvs
  · simp [Json.get] at hop
  · simp [Json.get] at hop
  · simp [Json.get] at hop
  · simp [Json.get] at hop
  · simp [Json.get] at hop
  · unfold collect_entry
    refine List.mem_append.mpr (Or.inr ?_)
    unfold collect_entry_opts
    rw [hop]
    dsimp only
    refine mem_flatten_of_mem_map hmem ?_
    rw [if_pos hobj]
    exact hr

/-- Claim C5: for every parameter fragment whose declared type contains the
collection-identifying substring, rules collected from the structure under
any of the nesting keys `options`/`values`/`fields`/`properties`/`collection`
are part of the enclosing collection's rules; rules collected from the
nested group of an entry of a declared `options` list are likewise part of
the enclosing collection's rules (so, composing these steps, rules buried
arbitrarily deep in grouped option structures are surfaced); and every rule
of the parameter-level collection is merged into the owning node's top-level
`conditional_rules`. -/
theorem c5_nested_rules_surfaced :
    (∀ (params val : Json) (nk : String) (r : String),
      val ∈ json_entries params →
      collection_typed val = true →
      nk ∈ nested_group_keys →
      collect_nested_arg_ok (val.getD nk) = true →
      r ∈ collect_conditional_rules_from_params (val.getD nk) →
      r ∈ collect_conditional_rules_from_params params) ∧
    (∀ (params val : Json) (l2 : List Json) (opt : Json) (r : String),
      val ∈ json_entries params →
      collection_typed val = true →
      val.get "options" = some (.arr l2) →
      opt ∈ l2 →
      opt.isObj = true →
      r ∈ collect_conditional_rules_from_params (opt_group opt) →
      r ∈ collect_conditional_rules_from_params params) ∧
    (∀ (node : Json) (c : CleanedNode) (r : String),
      clean_node node = .ok c →
      r ∈ collect_conditional_rules_from_params
        (pyOr (raw_params_of node) (.arr [])) →
      r ∈ c.configuration_logic.conditional_rules) := by
  refine ⟨?_, ?_, ?_⟩
  · intro params val nk r hval hty hnk hok hr
    cases params with
    | obj kvs =>
      simp only [json_entries] at hval
      obtain ⟨⟨k, v⟩, hkv, hv⟩ := List.mem_map.mp hval
      cases hv
      exact mem_collect_obj hkv (mem_entry_nest hty hnk hok hr)
    | arr l =>
      simp only [json_entries] at hval
      exact mem_collect_arr hval (mem_entry_nest hty hnk hok hr)
    | null => simp [json_entries] at hval
    | bool b => simp [json_entries] at hval
    | num n => simp [json_entries] at hval
    | str s => simp [json_entries] at hval
  · intro params val l2 opt r hval _ hop hmem hobj hr
    cases params with
    | obj kvs =>
      simp only [json_entries] at hval
      obtain ⟨⟨k, v⟩, hkv, hv⟩ := List.mem_map.mp hval
      cases hv
      exact mem_collect_obj hkv (mem_entry_opts hop hmem hobj hr)
    | arr l =>
      simp only [json_entries] at hval
      exact mem_collect_arr hval (mem_entry_opts hop hmem hobj hr)
    | null => simp [json_entries] at hval
    | bool b => simp [json_entries] at hval
    | num n => simp [json_entries] at hval
    | str s => simp [json_entries] at hval
  · intro node c r h hr
    exact mem_conditional_rules_of_collect h hr

def c5_inner : Json := .obj [("name", .str "x"),
  ("displayOptions", .obj [("show", .obj [("m", .arr [.str "1"])])])]

def c5_frag : Json := .obj [("type", .str "fixedCollection"),
  ("values", .arr [c5_inner])]

def c5_params : Json := .arr [c5_frag]

def c5b_inner : Json := .obj [("name", .str "y"),
  ("displayOptions", .obj [("show", .obj [("q", .arr [.str "2"])])])]

def c5b_opt : Json := .obj [("values", .arr [c5b_inner])]

def c5b_frag : Json := .obj [("type", .str "fixedCollection"),
  ("options", .arr [c5b_opt])]

def c5b_params : Json := .arr [c5b_frag]

def c5b_node : Json := .obj [("name", .str "Q"), ("properties", c5b_params)]

def c5b_cleaned : CleanedNode :=
  { node_id := .str "Q", name := .str "Q", version := .num 1,
    semantic_context := .str "",
    parameters := [(.str "param_1", .obj [("type", .str "fixedCollection"),
      ("options", .arr [c5b_opt]), ("name", .str "param_1"),
      ("ai_hint", .str hint_collection)])],
    configuration_logic :=
      { required_sequence := [],
        conditional_rules := ["IF q == \x272\x27 THEN SHOW parameter \x27y\x27"] },
    workflow_json_snippet := none }

/-- Witness for C5: a rule nested inside a `fixedCollection` fragment's
`values` group surfaces into the collection's rules; a rule nested inside an
entry of a `fixedCollection` fragment's declared `options` list (reachable
only through the options-entries branch: the fragment's `options` key holds
no rule-bearing fragments itself) also surfaces, and it reaches the owning
node's top-level `conditional_rules`. -/
theorem c5_nested_rules_surfaced_witness :
    "IF m == \x271\x27 THEN SHOW parameter \x27x\x27" ∈
        collect_conditional_rules_from_params c5_params ∧
    "IF q == \x272\x27 THEN SHOW parameter \x27y\x27" ∈
        collect_conditional_rules_from_params c5b_params ∧
    "IF q == \x272\x27 THEN SHOW parameter \x27y\x27" ∈
        c5b_cleaned.configuration_logic.conditional_rules := by
  have h1 : "IF m == \x271\x27 THEN SHOW parameter \x27x\x27" ∈
      collect_conditional_rules_from_params (c5_frag.getD "values") := by decide
  have h2 := c5_nested_rules_surfaced.1 c5_params c5_frag "values" _
    (by decide) (by decide) (by decide) (by decide) h1
  have h1b : "IF q == \x272\x27 THEN SHOW parameter \x27y\x27" ∈
      collect_conditional_rules_from_params (opt_group c5b_opt) := by decide
  have h2b := c5_nested_rules_surfaced.2.1 c5b_params c5b_frag [c5b_opt] c5b_opt _
    (by decide) (by decide) (by decide) (by decide) (by decide) h1b
  refine ⟨h2, h2b, ?_⟩
  have h3 : pyOr (raw_params_of c5b_node) (.arr []) = c5b_params := by decide
  exact c5_nested_rules_surfaced.2.2 c5b_node c5b_cleaned _ (by decide) (h3 ▸ h2b)

/-! ### Claim C6 -/

theorem mem_enumFrom_self {α : Type} (l : List α) (i : Nat) (hi : i < l.length) :
    (i + 1, l.get ⟨i, hi⟩) ∈ List.enumFrom 1 l := by
  have hlen : i < (l.enumFrom 1).length := by
    simpa [List.enumFrom_length] using hi
  have hg := List.getElem_enumFrom l 1 i hlen
  have hm := List.get_mem (l.enumFrom 1) i hlen
  rw [List.get_eq_getElem] at hm
  rw [hg] at hm
  simpa [Nat.add_comm, List.get_eq_getElem] using hm

/-- Claim C6: an exception raised while normalizing one record is caught and
logged with that node's one-based index; the failed record is excluded from
both the per-node and the aggregate output (each output is exactly the list
of successful results, in order), and every remaining successful record is
still processed into the aggregate output. -/
theorem c6_per_node_errors (ns : List Json) (i : Nat) (e : String)
    (hi : i < ns.length) (hclean : clean_node (ns.get ⟨i, hi⟩) = .error e) :
    (i + 1, e) ∈ (process_nodes_loop 1 ns).logs ∧
    (process_nodes_loop 1 ns).master =
      (List.enumFrom 1 ns).filterMap
        (fun p => (per_node p.1 p.2).toOption.map Prod.snd) ∧
    (process_nodes_loop 1 ns).files =
      (List.enumFrom 1 ns).filterMap (fun p => (per_node p.1 p.2).toOption) ∧
    ∀ (j : Nat) (hj : j < ns.length) (fc : String × CleanedNode),
      per_node (j + 1) (ns.get ⟨j, hj⟩) = .ok fc →
      fc.2 ∈ (process_nodes_loop 1 ns).master := by
  have hper : per_node (i + 1) (ns.get ⟨i, hi⟩) = .error e := by
    unfold per_node; rw [hclean]
  rw [process_nodes_loop_closed ns 1]
  refine ⟨?_, rfl, rfl, ?_⟩
  · apply List.mem_filterMap.mpr
    refine ⟨(i + 1, ns.get ⟨i, hi⟩), mem_enumFrom_self ns i hi, ?_⟩
    rw [hper]
  · intro j hj fc hfc
    apply List.mem_filterMap.mpr
    refine ⟨(j + 1, ns.get ⟨j, hj⟩), mem_enumFrom_self ns j hj, ?_⟩
    rw [hfc]
    rfl

def c6_bad_node : Json := .obj [("parameters",
  .arr [.obj [("name", .num 1), ("type", .arr [.str "x"])]])]

def c6_ok_node : Json := .obj [("name", .str "OK")]

/-- Witness for C6: in a two-record batch whose first record raises while
normalizing (a truthy non-string `type` makes `.lower()` raise), the failure
is logged with index 1 and the remaining record is still processed. -/
theorem c6_per_node_errors_witness :
    (1, "AttributeError: lower on non-string type") ∈
        (process_nodes_loop 1 [c6_bad_node, c6_ok_node]).logs ∧
    (process_nodes_loop 1 [c6_bad_node, c6_ok_node]).master.length = 1 := by
  have h := c6_per_node_errors [c6_bad_node, c6_ok_node] 0
    "AttributeError: lower on non-string type" (by decide) (by decide)
  refine ⟨h.1, ?_⟩
  rw [h.2.1]
  decide

/-! ### Claim C8 -/

theorem lookupStr_append_none {kvs : List (String × Json)} {key : String}
    {v : Json} (h : Json.lookupStr kvs key = none) :
    Json.lookupStr (kvs ++ [(key, v)]) key = some v := by
  induction kvs with
  | nil => simp [Json.lookupStr]
  | cons kv rest ih =>
    obtain ⟨k0, v0⟩ := kv
    by_cases hk : k0 = key
    · simp [Json.lookupStr, hk] at h
    · simp only [Json.lookupStr, if_neg hk] at h
      simp [Json.lookupStr, hk, ih h]

theorem lookupStr_obj_set_ne {kvs : List (String × Json)} {key key2 : String}
    {v : Json} (h : key2 ≠ key) :
    Json.lookupStr (obj_set kvs key2 v) key = Json.lookupStr kvs key := by
  induction kvs with
  | nil => simp [obj_set, Json.lookupStr, h]
  | cons kv rest ih =>
    obtain ⟨k0, v0⟩ := kv
    by_cases hk : k0 = key2
    · subst hk
      simp [obj_set, Json.lookupStr, h]
    · simp [obj_set, Json.lookupStr, hk, ih]

/-- Whatever `clean_parameter` does to the `ai_hint` entry, the `name` entry
of the result is the one of the fragment after the `setdefault` step. -/
theorem clean_parameter_name_lookup {kvs : List (String × Json)}
    {name p : Json} (h : clean_parameter (.obj kvs) name = .ok p) :
    p.get "name" = Json.lookupStr
      (if name.truthy then obj_setdefault kvs "name" name else kvs) "name" := by
  simp only [clean_parameter] at h
  set kvs1 := if name.truthy then obj_setdefault kvs "name" name else kvs with hk1
  by_cases hai : ((Json.obj kvs1).getD "ai_hint").truthy
  · rw [if_pos hai] at h
    simp only [pure, Except.pure, Except.ok.injEq] at h
    subst h
    rfl
  · rw [if_neg hai] at h
    cases hg : generate_ai_hint_for_param (pyOr ((Json.obj kvs1).getD "name") name)
        (Json.obj kvs1) with
    | error e =>
      rw [hg] at h
      replace h : (Except.error e : Except String Json) = Except.ok p := h
      exact Except.noConfusion h
    | ok g =>
      rw [hg] at h
      replace h : (if g.truthy then Except.ok (Json.obj (obj_set kvs1 "ai_hint" g))
          else Except.ok (Json.obj kvs1)) = Except.ok p := h
      by_cases hgt : g.truthy
      · rw [if_pos hgt] at h
        simp only [pure, Except.pure, Except.ok.injEq] at h
        subst h
        show Json.lookupStr (obj_set kvs1 "ai_hint" g) "name" = _
        exact lookupStr_obj_set_ne (by decide)
      · rw [if_neg hgt] at h
        simp only [pure, Except.pure, Except.ok.injEq] at h
        subst h
        rfl

def c8_node : Json := .obj [("properties",
  .obj [("token", .obj [("name", .str "other"), ("type", .str "string")])])]

/-- Counterexample to claim C8: with a mapping-shaped parameter source
`{"token": {"name": "other", ...}}` the resulting spec keeps its explicit
`name` field `"other"`; the mapping key `"token"` does not override it
(`setdefault` only fills an absent key), so the spec's name field does not
equal the mapping key. -/
theorem c8_counterexample :
    (clean_node c8_node).map (fun c =>
      c.parameters.map fun kv => (kv.1, kv.2.get "name")) =
      .ok [(.str "token", some (.str "other"))] ∧
    Json.str "other" ≠ .str "token" := by
  exact ⟨by decide, by decide⟩

/-- Claim C8 (amended): for a mapping-shaped parameter source the mapping key
is synthesized into the fragment as its `name` only when the fragment has no
`name` key (`setdefault`); a fragment that carries an explicit `name` entry
keeps it — the fragment's own name field, not the mapping key, is
authoritative for the spec's `name`, while the parameters mapping itself is
still keyed by the mapping key. -/
theorem c8_amended :
    (∀ (kvs : List (String × Json)) (k : String) (p : Json),
      Json.lookupStr kvs "name" = none → k ≠ "" →
      clean_parameter (.obj kvs) (.str k) = .ok p →
      p.get "name" = some (.str k)) ∧
    (∀ (kvs : List (String × Json)) (k : String) (n0 p : Json),
      Json.lookupStr kvs "name" = some n0 →
      clean_parameter (.obj kvs) (.str k) = .ok p →
      p.get "name" = some n0) := by
  constructor
  · intro kvs k p hn hk h
    rw [clean_parameter_name_lookup h]
    have ht : (Json.str k).truthy = true := by simp [Json.truthy, hk]
    rw [if_pos ht]
    unfold obj_setdefault
    rw [hn]
    exact lookupStr_append_none hn
  · intro kvs k n0 p hn h
    rw [clean_parameter_name_lookup h]
    by_cases ht : (Json.str k).truthy
    · rw [if_pos ht]
      unfold obj_setdefault
      rw [hn]
      exact hn
    · rw [if_neg ht]
      exact hn

/-- Witness for the amended C8: key `"token"` is synthesized when the
fragment has no name; the explicit name `"other"` survives when it has
one. -/
theorem c8_amended_witness :
    (Json.obj [("type", .str "string"), ("name", .str "token"),
      ("ai_hint", .str hint_auth)]).get "name" = some (.str "token") ∧
    (Json.obj [("name", .str "other"), ("type", .str "string")]).get "name" =
      some (.str "other") := by
  constructor
  · exact c8_amended.1 [("type", .str "string")] "token"
      (.obj [("type", .str "string"), ("name", .str "token"),
        ("ai_hint", .str hint_auth)]) (by decide) (by decide) (by decide)
  · exact c8_amended.2 [("name", .str "other"), ("type", .str "string")]
      "token" (.str "other")
      (.obj [("name", .str "other"), ("type", .str "string")])
      (by decide) (by decide)

/-! ### Claim C10 -/

theorem build_params_list_append (l1 l2 : List Json) (acc : List (Json × Json)) :
    build_params_list (l1 ++ l2) acc =
      match build_params_list l1 acc with
      | .error e => .error e
      | .ok m => build_params_list l2 m := by
  induction l1 generalizing acc with
  | nil => rfl
  | cons p rest ih =>
    simp only [List.cons_append, build_params_list]
    by_cases hobj : p.isObj
    · rw [if_pos hobj, if_pos hobj]
      cases hcp : clean_parameter p (assigned_name p acc) with
      | error e => rfl
      | ok cp =>
        dsimp only
        by_cases hun : (assigned_name p acc).isArr || (assigned_name p acc).isObj
        · rw [if_pos hun, if_pos hun]
        · rw [if_neg hun, if_neg hun]
          exact ih _
    · rw [if_neg hobj, if_neg hobj]
      exact ih _

theorem build_params_list_prefix_ok {l1 l2 : List Json}
    {acc ps : List (Json × Json)}
    (h : build_params_list (l1 ++ l2) acc = .ok ps) :
    ∃ m, build_params_list l1 acc = .ok m ∧ build_params_list l2 m = .ok ps := by
  rw [build_params_list_append] at h
  cases hb : build_params_list l1 acc with
  | error e => rw [hb] at h; exact Except.noConfusion h
  | ok m => rw [hb] at h; exact ⟨m, rfl, h⟩

/-- Fragments that derive truthy names different from `key` never touch the
entry at `key`. -/
theorem build_params_list_get_frozen {l2 : List Json}
    {m ps : List (Json × Json)} {key : Json}
    (h : build_params_list l2 m = .ok ps)
    (hno : ∀ p ∈ l2, p.isObj = true →
      (derived_name p).truthy = true ∧ derived_name p ≠ key) :
    dict_get ps key = dict_get m key := by
  induction l2 generalizing m with
  | nil => cases h; rfl
  | cons p rest ih =>
    simp only [build_params_list] at h
    by_cases hobj : p.isObj
    · rw [if_pos hobj] at h
      obtain ⟨ht, hne⟩ := hno p (List.mem_cons_self _ _) hobj
      have han : assigned_name p m = derived_name p := by
        simp only [assigned_name]
        rw [if_pos ht]
      rw [han] at h
      cases hcp : clean_parameter p (derived_name p) with
      | error e => rw [hcp] at h; exact Except.noConfusion h
      | ok cp =>
        rw [hcp] at h
        dsimp only at h
        by_cases hun : (derived_name p).isArr || (derived_name p).isObj
        · rw [if_pos hun] at h
          exact Except.noConfusion h
        · rw [if_neg hun] at h
          rw [ih h fun q hq hq2 => hno q (List.mem_cons_of_mem _ hq) hq2]
          exact dict_get_set_ne m cp hne
    · rw [if_neg hobj] at h
      exact ih h fun q hq hq2 => hno q (List.mem_cons_of_mem _ hq) hq2

theorem dict_get_none_iff (m : List (Json × Json)) (k : Json) :
    dict_get m k = none ↔ k ∉ m.map Prod.fst := by
  induction m with
  | nil => simp [dict_get]
  | cons kv rest ih =>
    obtain ⟨k0, v0⟩ := kv
    by_cases hk : k0 = k
    · subst hk; simp [dict_get]
    · simp only [dict_get, if_neg hk, List.map_cons, List.mem_cons, ih]
      constructor
      · intro hnk
        rintro (rfl | hm)
        · exact hk rfl
        · exact hnk hm
      · intro hno hm
        exact hno (Or.inr hm)

theorem dict_set_keys (m : List (Json × Json)) (k v : Json) :
    (dict_set m k v).map Prod.fst =
      if (dict_get m k).isSome then m.map Prod.fst
      else m.map Prod.fst ++ [k] := by
  induction m with
  | nil => simp [dict_set, dict_get]
  | cons kv rest ih =>
    obtain ⟨k0, v0⟩ := kv
    by_cases hk : k0 = k
    · simp [dict_set, dict_get, hk]
    · simp only [dict_set, dict_get, if_neg hk, List.map_cons, ih]
      split <;> simp

theorem dict_set_keys_nodup {m : List (Json × Json)} {k v : Json}
    (h : (m.map Prod.fst).Nodup) :
    ((dict_set m k v).map Prod.fst).Nodup := by
  rw [dict_set_keys]
  cases hg : dict_get m k with
  | some w => simpa using h
  | none =>
    have hk : k ∉ m.map Prod.fst := (dict_get_none_iff m k).mp hg
    simp only [Option.isSome_none, Bool.false_eq_true, if_false]
    rw [List.nodup_append]
    refine ⟨h, List.nodup_singleton k, ?_⟩
    intro a ha hak
    rw [List.mem_singleton] at hak
    subst hak
    exact hk ha

/-- The canonicalized mapping never has two entries with the same key. -/
theorem build_params_list_keys_nodup :
    ∀ (l : List Json) (acc ps : List (Json × Json)),
      (acc.map Prod.fst).Nodup → build_params_list l acc = .ok ps →
      (ps.map Prod.fst).Nodup := by
  intro l
  induction l with
  | nil =>
    intro acc ps hn h
    cases h
    exact hn
  | cons p rest ih =>
    intro acc ps hn h
    simp only [build_params_list] at h
    by_cases hobj : p.isObj
    · rw [if_pos hobj] at h
      cases hcp : clean_parameter p (assigned_name p acc) with
      | error e => rw [hcp] at h; exact Except.noConfusion h
      | ok cp =>
        rw [hcp] at h
        dsimp only at h
        by_cases hun : (assigned_name p acc).isArr || (assigned_name p acc).isObj
        · rw [if_pos hun] at h
          exact Except.noConfusion h
        · rw [if_neg hun] at h
          exact ih _ _ (dict_set_keys_nodup hn) h
    · rw [if_neg hobj] at h
      exact ih _ _ hn h

theorem count_filterMap_two (f : Json → Option Json) (a : Json) :
    ∀ (l : List Json) (i j : Nat) (hi : i < l.length) (hj : j < l.length),
      i < j → f (l.get ⟨i, hi⟩) = some a → f (l.get ⟨j, hj⟩) = some a →
      2 ≤ (l.filterMap f).count a := by
  intro l
  induction l with
  | nil =>
    intro i j hi hj hij hfi hfj
    exact absurd hi (by simp)
  | cons x rest ih =>
    intro i j hi hj hij hfi hfj
    cases i with
    | zero =>
      cases j with
      | zero => omega
      | succ j2 =>
        have hj2 : j2 < rest.length := by simpa using hj
        have hfj2 : f (rest.get ⟨j2, hj2⟩) = some a := hfj
        have hmem : a ∈ rest.filterMap f := List.mem_filterMap.mpr
          ⟨rest.get ⟨j2, hj2⟩, List.get_mem rest j2 hj2, hfj2⟩
        have hc1 : 0 < (rest.filterMap f).count a := List.count_pos_iff.mpr hmem
        have hx : f x = some a := hfi
        rw [List.filterMap_cons_some hx, List.count_cons_self]
        omega
    | succ i2 =>
      cases j with
      | zero => omega
      | succ j2 =>
        have hi2 : i2 < rest.length := by simpa using hi
        have hj2 : j2 < rest.length := by simpa using hj
        have hrec := ih i2 j2 hi2 hj2 (by omega) hfi hfj
        cases hfx : f x with
        | none => rw [List.filterMap_cons_none hfx]; exact hrec
        | some b =>
          rw [List.filterMap_cons_some hfx]
          exact le_trans hrec (List.count_le_count_cons a b _)

/-- Claim C10: for a list-shaped parameter source in which two fragments
derive the same (truthy, string) name, the later fragment's cleaned spec is
the value stored under that key (last writer wins), the mapping carries one
entry per key (no duplicate keys), while `required_sequence` keeps one entry
per name-deriving fragment in declaration order — so it counts the shared
name at least twice and can be longer than the mapping. -/
theorem c10_duplicate_names (l : List Json) (ps : List (Json × Json))
    (i j : Nat) (hi : i < l.length) (hj : j < l.length) (hij : i < j)
    (s : String) (hs : s ≠ "")
    (hobji : (l.get ⟨i, hi⟩).isObj = true)
    (hobjj : (l.get ⟨j, hj⟩).isObj = true)
    (hdi : derived_name (l.get ⟨i, hi⟩) = .str s)
    (hdj : derived_name (l.get ⟨j, hj⟩) = .str s)
    (hafter : ∀ p ∈ l.drop (j + 1), p.isObj = true →
      (derived_name p).truthy = true ∧ derived_name p ≠ .str s)
    (hok : build_params_list l [] = .ok ps) :
    (∃ cp, clean_parameter (l.get ⟨j, hj⟩) (.str s) = .ok cp ∧
      dict_get ps (.str s) = some cp) ∧
    2 ≤ (required_sequence_of_list l).count (.str s) ∧
    (ps.map Prod.fst).Nodup := by
  have hstr : (Json.str s).truthy = true := by simp [Json.truthy, hs]
  refine ⟨?_, ?_, build_params_list_keys_nodup l [] ps (by simp) hok⟩
  · have hok1 : build_params_list (l.take (j + 1) ++ l.drop (j + 1)) [] = .ok ps := by
      rw [List.take_append_drop]
      exact hok
    obtain ⟨m1, hm1, hrest⟩ := build_params_list_prefix_ok hok1
    have htake : l.take (j + 1) = l.take j ++ [l.get ⟨j, hj⟩] := by
      rw [List.take_succ, List.getElem?_eq_getElem hj]
      simp [List.get_eq_getElem]
    rw [htake] at hm1
    obtain ⟨m0, hm0, hstep⟩ := build_params_list_prefix_ok hm1
    have han : assigned_name (l.get ⟨j, hj⟩) m0 = .str s := by
      simp only [assigned_name]
      rw [hdj, if_pos hstr]
    simp only [build_params_list] at hstep
    rw [if_pos hobjj, han] at hstep
    cases hcp : clean_parameter (l.get ⟨j, hj⟩) (.str s) with
    | error e => rw [hcp] at hstep; exact Except.noConfusion hstep
    | ok cp =>
      rw [hcp] at hstep
      dsimp only at hstep
      rw [if_neg (by simp [Json.isArr, Json.isObj])] at hstep
      have hm1v : m1 = dict_set m0 (.str s) cp := by
        have := (Except.ok.injEq _ _).mp hstep
        exact this.symm
      refine ⟨cp, rfl, ?_⟩
      rw [build_params_list_get_frozen hrest hafter, hm1v]
      exact dict_get_set_self m0 (.str s) cp
  · unfold required_sequence_of_list
    refine count_filterMap_two _ _ l i j hi hj hij ?_ ?_
    · rw [hobji, hdi]
      simp [hstr]
    · rw [hobjj, hdj]
      simp [hstr]

def c10_l : List Json := [.obj [("name", .str "a"), ("type", .str "string")],
  .obj [("name", .str "a"), ("type", .str "number")]]

def c10_ps : List (Json × Json) :=
  [(.str "a", .obj [("name", .str "a"), ("type", .str "number")])]

/-- Witness for C10: two fragments both named `"a"` — the mapping holds the
later fragment's spec under the single `"a"` key while `required_sequence`
counts `"a"` twice. -/
theorem c10_duplicate_names_witness :
    dict_get c10_ps (.str "a") =
      some (.obj [("name", .str "a"), ("type", .str "number")]) ∧
    2 ≤ (required_sequence_of_list c10_l).count (.str "a") ∧
    (required_sequence_of_list c10_l).length = 2 ∧ c10_ps.length = 1 := by
  have h := c10_duplicate_names c10_l c10_ps 0 1 (by decide) (by decide)
    (by decide) "a" (by decide) (by decide) (by decide) (by decide) (by decide)
    (by intro p hp; simp [c10_l] at hp) (by decide)
  obtain ⟨⟨cp, hcp, hget⟩, hcount, -⟩ := h
  have hcpv : cp = .obj [("name", .str "a"), ("type", .str "number")] := by
    have h2 : clean_parameter (c10_l.get ⟨1, by decide⟩) (.str "a") =
        .ok (.obj [("name", .str "a"), ("type", .str "number")]) := by decide
    exact ((Except.ok.injEq _ _).mp (hcp.symm.trans h2))
  subst hcpv
  exact ⟨hget, hcount, by decide, by decide⟩

/-! ### Claim C7 -/

def c7_l : List Json := [.obj [("name", .str "param_2")], .obj [], .obj []]

/-- Counterexample to claim C7: in
`[{"name": "param_2"}, {}, {}]` the second fragment's positional placeholder
is `param_` + str(len+1) = `"param_2"`, which collides with the first
fragment's explicit name (and the third fragment then collides again), so
the placeholder is not unique within the collection: three mapping fragments
leave a single entry. -/
theorem c7_counterexample :
    derived_name (.obj [("name", .str "param_2")]) = .str "param_2" ∧
    assigned_name (.obj [])
      [(.str "param_2", .obj [("name", .str "param_2")])] = .str "param_2" ∧
    build_params_list c7_l [] =
      .ok [(.str "param_2", .obj [("name", .str "param_2")])] ∧
    c7_l.length = 3 := by
  refine ⟨by decide, by decide, by decide, by decide⟩

/-- No fragment of the list derives — via the name/key/id chain or via the
label — a name of the placeholder shape `param_<decimal>`. -/
def no_param_shaped_names (l : List Json) : Prop :=
  ∀ p ∈ l, p.isObj = true →
    (∀ k : Nat, derived_name p ≠ .str ("param_" ++ Nat.repr k)) ∧
    (∀ k : Nat, p.getD "label" ≠ .str ("param_" ++ Nat.repr k))

theorem param_name_inj {a b : Nat}
    (h : ("param_" ++ Nat.repr a : String) = "param_" ++ Nat.repr b) :
    a = b := by
  apply Nat.repr_inj
  apply String.ext
  have hd := congrArg String.data h
  rw [String.data_append, String.data_append] at hd
  exact List.append_cancel_left hd

theorem build_params_list_length_mono :
    ∀ (l : List Json) (acc ps : List (Json × Json)),
      build_params_list l acc = .ok ps → acc.length ≤ ps.length := by
  intro l
  induction l with
  | nil =>
    intro acc ps h
    cases h
    exact le_rfl
  | cons p rest ih =>
    intro acc ps h
    simp only [build_params_list] at h
    by_cases hobj : p.isObj
    · rw [if_pos hobj] at h
      cases hcp : clean_parameter p (assigned_name p acc) with
      | error e => rw [hcp] at h; exact Except.noConfusion h
      | ok cp =>
        rw [hcp] at h
        dsimp only at h
        by_cases hun : (assigned_name p acc).isArr || (assigned_name p acc).isObj
        · rw [if_pos hun] at h; exact Except.noConfusion h
        · rw [if_neg hun] at h
          have h1 := ih _ _ h
          have h2 := dict_set_length acc (assigned_name p acc) cp
          have h3 : acc.length ≤ (dict_set acc (assigned_name p acc) cp).length := by
            rw [h2]; split <;> omega
          omega
    · rw [if_neg hobj] at h
      exact ih _ _ h

/-- Along a run whose fragments never derive a placeholder-shaped name, any
`param_<k>` key of the mapping satisfies `k ≤` the mapping's size: the only
such keys are previously assigned positional placeholders. -/
theorem build_params_list_param_invariant :
    ∀ (l : List Json) (acc ps : List (Json × Json)),
      no_param_shaped_names l →
      (∀ k : Nat, dict_get acc (.str ("param_" ++ Nat.repr k)) ≠ none →
        k ≤ acc.length) →
      build_params_list l acc = .ok ps →
      ∀ k : Nat, dict_get ps (.str ("param_" ++ Nat.repr k)) ≠ none →
        k ≤ ps.length := by
  intro l
  induction l with
  | nil =>
    intro acc ps _ hinv h
    cases h
    exact hinv
  | cons p rest ih =>
    intro acc ps hnp hinv h
    simp only [build_params_list] at h
    by_cases hobj : p.isObj
    · rw [if_pos hobj] at h
      cases hcp : clean_parameter p (assigned_name p acc) with
      | error e => rw [hcp] at h; exact Except.noConfusion h
      | ok cp =>
        rw [hcp] at h
        dsimp only at h
        by_cases hun : (assigned_name p acc).isArr || (assigned_name p acc).isObj
        · rw [if_pos hun] at h; exact Except.noConfusion h
        · rw [if_neg hun] at h
          refine ih _ _ (fun q hq => hnp q (List.mem_cons_of_mem _ hq)) ?_ h
          obtain ⟨hd, hl⟩ := hnp p (List.mem_cons_self _ _) hobj
          intro k hk
          have hlen := dict_set_length acc (assigned_name p acc) cp
          by_cases hder : (derived_name p).truthy
          · have han : assigned_name p acc = derived_name p := by
              simp only [assigned_name]
              rw [if_pos hder]
            rw [han] at hk hlen
            rw [dict_get_set_ne acc cp (hd k)] at hk
            have := hinv k hk
            rw [han, hlen]
            split <;> omega
          · by_cases hlabt : (p.getD "label").truthy
            · have han : assigned_name p acc = p.getD "label" := by
                simp only [assigned_name]
                rw [if_neg (by simp [hder])]
                unfold pyOr
                rw [if_pos hlabt]
              rw [han] at hk hlen
              rw [dict_get_set_ne acc cp (hl k)] at hk
              have := hinv k hk
              rw [han, hlen]
              split <;> omega
            · have han : assigned_name p acc =
                  .str ("param_" ++ Nat.repr (acc.length + 1)) := by
                simp only [assigned_name]
                rw [if_neg (by simp [hder])]
                unfold pyOr
                rw [if_neg (by simp [hlabt])]
              rw [han] at hk hlen
              have hfresh : dict_get acc
                  (.str ("param_" ++ Nat.repr (acc.length + 1))) = none := by
                by_contra hne
                have := hinv _ hne
                omega
              rw [hfresh] at hlen
              simp only [Option.isSome_none, Bool.false_eq_true, if_false] at hlen
              by_cases hkk : k = acc.length + 1
              · rw [han, hlen]
                omega
              · have hne2 : Json.str ("param_" ++ Nat.repr (acc.length + 1)) ≠
                    .str ("param_" ++ Nat.repr k) := by
                  intro hcontra
                  injection hcontra with hcontra
                  exact hkk (param_name_inj hcontra).symm
                rw [dict_get_set_ne acc cp hne2] at hk
                have := hinv k hk
                rw [han, hlen]
                omega
    · rw [if_neg hobj] at h
      exact ih _ _ (fun q hq => hnp q (List.mem_cons_of_mem _ hq)) hinv h

/-- Claim C7 (amended): a list-shaped fragment whose name/key/id chain and
label are all falsy is assigned the positional placeholder
`param_<n+1>` where `n` is the number of parameters canonicalized so far;
provided no fragment of the collection derives a name or label of the
placeholder shape `param_<decimal>`, that placeholder is distinct from every
parameter name already in the mapping (so it is inserted fresh, never
replacing), and placeholders assigned to distinct later fragments are
pairwise distinct from it.  (Without that proviso the placeholder can
collide with another parameter's name — see the counterexample.) -/
theorem c7_amended (l : List Json) (hnp : no_param_shaped_names l)
    (idx : Nat) (hidx : idx < l.length)
    (hobj : (l.get ⟨idx, hidx⟩).isObj = true)
    (hder : (derived_name (l.get ⟨idx, hidx⟩)).truthy = false)
    (hlab : ((l.get ⟨idx, hidx⟩).getD "label").truthy = false)
    (m0 : List (Json × Json))
    (hm0 : build_params_list (l.take idx) [] = .ok m0) :
    assigned_name (l.get ⟨idx, hidx⟩) m0 =
      .str ("param_" ++ Nat.repr (m0.length + 1)) ∧
    dict_get m0 (.str ("param_" ++ Nat.repr (m0.length + 1))) = none ∧
    (∀ (idx2 : Nat) (hidx2 : idx2 < l.length), idx < idx2 →
      (l.get ⟨idx2, hidx2⟩).isObj = true →
      (derived_name (l.get ⟨idx2, hidx2⟩)).truthy = false →
      ((l.get ⟨idx2, hidx2⟩).getD "label").truthy = false →
      ∀ m2, build_params_list (l.take idx2) [] = .ok m2 →
        assigned_name (l.get ⟨idx2, hidx2⟩) m2 ≠
          assigned_name (l.get ⟨idx, hidx⟩) m0) := by
  have hnp_take : ∀ n, no_param_shaped_names (l.take n) := fun n p hp hob =>
    hnp p (List.mem_of_mem_take hp) hob
  have hinv0 : ∀ k : Nat,
      dict_get ([] : List (Json × Json)) (.str ("param_" ++ Nat.repr k)) ≠ none →
      k ≤ ([] : List (Json × Json)).length := by
    intro k hk
    simp [dict_get] at hk
  have hinv_m0 := build_params_list_param_invariant (l.take idx) [] m0
    (hnp_take idx) hinv0 hm0
  have hform : assigned_name (l.get ⟨idx, hidx⟩) m0 =
      .str ("param_" ++ Nat.repr (m0.length + 1)) := by
    simp only [assigned_name]
    rw [if_neg (by rw [hder]; simp)]
    unfold pyOr
    rw [if_neg (by rw [hlab]; simp)]
  have hfresh : dict_get m0 (.str ("param_" ++ Nat.repr (m0.length + 1))) = none := by
    by_contra hne
    have := hinv_m0 _ hne
    omega
  refine ⟨hform, hfresh, ?_⟩
  intro idx2 hidx2 hlt hobj2 hder2 hlab2 m2 hm2
  have hform2 : assigned_name (l.get ⟨idx2, hidx2⟩) m2 =
      .str ("param_" ++ Nat.repr (m2.length + 1)) := by
    simp only [assigned_name]
    rw [if_neg (by rw [hder2]; simp)]
    unfold pyOr
    rw [if_neg (by rw [hlab2]; simp)]
  rw [hform, hform2]
  intro heq
  have hlen_eq : m2.length + 1 = m0.length + 1 := by
    injection heq with hstr2
    exact param_name_inj hstr2
  have htake : l.take (idx + 1) = l.take idx ++ [l.get ⟨idx, hidx⟩] := by
    rw [List.take_succ, List.getElem?_eq_getElem hidx]
    simp [List.get_eq_getElem]
  have hsplit2 : l.take idx2 = l.take (idx + 1) ++ (l.take idx2).drop (idx + 1) := by
    have h1 : (l.take idx2).take (idx + 1) = l.take (idx + 1) := by
      rw [List.take_take]
      congr 1
      omega
    calc l.take idx2
        = (l.take idx2).take (idx + 1) ++ (l.take idx2).drop (idx + 1) :=
          (List.take_append_drop _ _).symm
      _ = l.take (idx + 1) ++ (l.take idx2).drop (idx + 1) := by rw [h1]
  rw [hsplit2] at hm2
  obtain ⟨mm, hmm, hrest2⟩ := build_params_list_prefix_ok hm2
  rw [htake, build_params_list_append, hm0] at hmm
  dsimp only at hmm
  simp only [build_params_list] at hmm
  rw [if_pos hobj, hform] at hmm
  cases hcp : clean_parameter (l.get ⟨idx, hidx⟩)
      (.str ("param_" ++ Nat.repr (m0.length + 1))) with
  | error e => rw [hcp] at hmm; exact Except.noConfusion hmm
  | ok cp =>
    rw [hcp] at hmm
    dsimp only at hmm
    rw [if_neg (by simp [Json.isArr, Json.isObj])] at hmm
    have hmmv : mm = dict_set m0 (.str ("param_" ++ Nat.repr (m0.length + 1))) cp :=
      ((Except.ok.injEq _ _).mp hmm).symm
    have hmml : mm.length = m0.length + 1 := by
      rw [hmmv, dict_set_length, hfresh]
      simp
    have hmono := build_params_list_length_mono _ _ _ hrest2
    omega

theorem short_ne_param {s : String} (hlen : s.length < 6) :
    ∀ k : Nat, Json.str s ≠ .str ("param_" ++ Nat.repr k) := by
  intro k h
  injection h with h
  have hlen2 := congrArg String.length h
  rw [String.length_append] at hlen2
  have h6 : ("param_" : String).length = 6 := by decide
  omega

def c7w_l : List Json := [.obj [("name", .str "a")], .obj [], .obj []]

def c7w_m0 : List (Json × Json) := [(.str "a", .obj [("name", .str "a")])]

def c7w_m2 : List (Json × Json) := [(.str "a", .obj [("name", .str "a")]),
  (.str "param_2", .obj [("name", .str "param_2")])]

/-- Witness for the amended C7: the second fragment of
`[{"name": "a"}, {}, {}]` gets the fresh placeholder `param_2` and the third
fragment's placeholder differs from it. -/
theorem c7_amended_witness :
    assigned_name (c7w_l.get ⟨1, by decide⟩) c7w_m0 =
      .str ("param_" ++ Nat.repr (c7w_m0.length + 1)) ∧
    dict_get c7w_m0 (.str ("param_" ++ Nat.repr (c7w_m0.length + 1))) = none ∧
    assigned_name (c7w_l.get ⟨2, by decide⟩) c7w_m2 ≠
      assigned_name (c7w_l.get ⟨1, by decide⟩) c7w_m0 := by
  have hnp : no_param_shaped_names c7w_l := by
    intro p hp hpo
    simp only [c7w_l, List.mem_cons, List.not_mem_nil, or_false] at hp
    rcases hp with rfl | rfl | rfl
    · exact ⟨short_ne_param (by decide), fun k h => Json.noConfusion h⟩
    · exact ⟨fun k h => Json.noConfusion h, fun k h => Json.noConfusion h⟩
    · exact ⟨fun k h => Json.noConfusion h, fun k h => Json.noConfusion h⟩
  have h := c7_amended c7w_l hnp 1 (by decide) (by decide) (by decide)
    (by decide) c7w_m0 (by decide)
  exact ⟨h.1, h.2.1, h.2.2 2 (by decide) (by decide) (by decide) (by decide)
    (by decide) c7w_m2 (by decide)⟩
